import Mathlib

/-!
# Verification of the SCA-2D space-colonization core

A shallow embedding, over exact rationals, of the growth engine in
`sim-core` (crate `sim_core`): the flat index tree (`tree.rs`), the
attractor set (`attractor.rs`), the per-node influence accumulator
(`influence_buffer.rs`), the configuration (`config.rs`) and the three
phase functions (`phases.rs`).  The stray duplicate module at the
repository top level (`src/influence_buffer.rs`) is embedded as well,
under the namespace `SrcDup`, because its `ensure_len` differs from the
`sim-core` one.

Modelling conventions:
* `f32` arithmetic is idealized as exact rational arithmetic; the claims
  under study are structural (ranks, data flow, invariants), not about
  rounding.  `f32::total_cmp` coincides with the rational order on the
  NaN-free values the simulation produces.
* The floating-point square root (reached only through `glam`'s
  `normalize` / `normalize_or_zero`) is modelled by `SCA.sqrtQ`, which
  agrees with the exact square root whenever the radicand is the square
  of a rational; every theorem below either evaluates it at such a point
  or does not depend on its value.
* Rust `Vec` indexing that would panic when out of bounds is totalized
  with `getD` / `List.set` (a no-op out of bounds); all theorems are
  stated under the in-bounds hypotheses that the real pipeline
  guarantees, so the default branch is never what is being proved.
* `u32` counts are modelled as `Nat`; no claim depends on wrap-around.
* `select_nth_unstable_by` is modelled by fully sorting with the same
  comparator and indexing: the element placed at the selected rank is,
  with respect to the comparator, exactly the one a full sort puts
  there.
-/

namespace SCA

/-- 2-D vector with exact rational coordinates (embeds `glam::Vec2`). -/
structure Vec2 where
  x : ℚ
  y : ℚ
deriving DecidableEq, Repr

namespace Vec2

instance : Zero Vec2 := ⟨⟨0, 0⟩⟩

instance : Add Vec2 := ⟨fun a b => ⟨a.x + b.x, a.y + b.y⟩⟩

instance : Sub Vec2 := ⟨fun a b => ⟨a.x - b.x, a.y - b.y⟩⟩

instance : Inhabited Vec2 := ⟨0⟩

/-- Scalar multiplication `c * v` (embeds `glam` scalar `Mul`). -/
def smul (c : ℚ) (v : Vec2) : Vec2 := ⟨c * v.x, c * v.y⟩

/-- `Vec2::length_squared`: `x*x + y*y`. -/
def len2 (v : Vec2) : ℚ := v.x * v.x + v.y * v.y

theorem zero_x : (0 : Vec2).x = 0 := rfl

theorem zero_y : (0 : Vec2).y = 0 := rfl

theorem add_def (a b : Vec2) : a + b = ⟨a.x + b.x, a.y + b.y⟩ := rfl

theorem sub_def (a b : Vec2) : a - b = ⟨a.x - b.x, a.y - b.y⟩ := rfl

end Vec2

/-- Stand-in for the `f32` square root: exact on perfect-square
rationals (numerator and denominator of the reduced form both perfect
squares), which is the only regime in which any theorem below inspects
its value. -/
def sqrtQ (q : ℚ) : ℚ := (Nat.sqrt q.num.toNat : ℚ) / (Nat.sqrt q.den : ℚ)

namespace Vec2

/-- `glam::Vec2::normalize`: `v / v.length()` (callers below only reach
it on nonzero vectors, mirroring the guarded call sites). -/
def normalize (v : Vec2) : Vec2 := smul (sqrtQ (len2 v))⁻¹ v

/-- `glam::Vec2::normalize_or_zero`: the zero vector when the length is
zero, the normalized vector otherwise. -/
def normalize_or_zero (v : Vec2) : Vec2 :=
  if len2 v = 0 then 0 else normalize v

end Vec2

/-- `types::NodeId`: a dense index into the owning tree's node list. -/
abbrev NodeId := Nat

/-- `tree::TreeNode`: position, radius, optional parent, child list. -/
structure TreeNode where
  pos : Vec2
  radius : ℚ
  parent : Option NodeId
  children : List NodeId
deriving DecidableEq, Repr

instance : Inhabited TreeNode := ⟨⟨0, 0, none, []⟩⟩

/-- `tree::Tree`: a flat, append-only list of nodes. -/
structure Tree where
  nodes : List TreeNode
deriving DecidableEq, Repr

namespace TreeNode

/-- `TreeNode::new_root`. -/
def new_root (pos : Vec2) (radius : ℚ) : TreeNode :=
  ⟨pos, radius, none, []⟩

/-- `TreeNode::new_child`. -/
def new_child (pos : Vec2) (radius : ℚ) (parent : NodeId) : TreeNode :=
  ⟨pos, radius, some parent, []⟩

end TreeNode

namespace Tree

/-- `Tree::new`: a single root node at index 0. -/
def new (root_pos : Vec2) (root_radius : ℚ) : Tree :=
  ⟨[TreeNode.new_root root_pos root_radius]⟩

/-- `Tree::add_free_node`: append a parentless node, return its index.
Returned together with the updated tree (Rust mutates in place). -/
def add_free_node (t : Tree) (pos : Vec2) (radius : ℚ) : Tree × NodeId :=
  (⟨t.nodes ++ [TreeNode.new_root pos radius]⟩, t.nodes.length)

/-- `Tree::add_child`: append a child node, push its id onto the
parent's child list, return its index.  The parent index access (a
panic when invalid in Rust) is totalized: `List.set` out of bounds is a
no-op. -/
def add_child (t : Tree) (parent : NodeId) (pos : Vec2) (radius : ℚ) :
    Tree × NodeId :=
  let id := t.nodes.length
  let pushed := t.nodes ++ [TreeNode.new_child pos radius parent]
  let pnode := pushed.getD parent default
  (⟨pushed.set parent { pnode with children := pnode.children ++ [id] }⟩, id)

/-- `Tree::has_child_near`: some direct child of `parent` lies at
squared distance strictly below `eps * eps` from `pos`. -/
def has_child_near (t : Tree) (parent : NodeId) (pos : Vec2) (eps : ℚ) : Bool :=
  let eps2 := eps * eps
  (t.nodes.getD parent default).children.any fun cid =>
    Vec2.len2 ((t.nodes.getD cid default).pos - pos) < eps2

/-- Loop body of `Tree::find_nearest_node`: keep the strictly closer
candidate (`best = None, best_d2 = f32::MAX` before the loop; the
`None` accumulator stands for the not-yet-updated initial state). -/
def nearestFold (pos : Vec2) (acc : Option (NodeId × ℚ)) (idn : NodeId × TreeNode) :
    Option (NodeId × ℚ) :=
  let d2 := Vec2.len2 (idn.2.pos - pos)
  match acc with
  | none => some (idn.1, d2)
  | some (bid, bd2) => if d2 < bd2 then some (idn.1, d2) else some (bid, bd2)

/-- `Tree::find_nearest_node`: linear scan, ties kept at the first
(lowest-index) node encountered. -/
def find_nearest_node (t : Tree) (pos : Vec2) : Option (NodeId × ℚ) :=
  t.nodes.enum.foldl (nearestFold pos) none

/-- The `dist_list` built inside `find_kth_nearest_nodes`: every node
id paired with its squared distance to `pos`, in index order. -/
def distList (t : Tree) (pos : Vec2) : List (NodeId × ℚ) :=
  t.nodes.enum.map fun p => (p.1, Vec2.len2 (p.2.pos - pos))

/-- The comparator of `find_kth_nearest_nodes` (`a.1.total_cmp(&b.1)`
on NaN-free values): order by squared distance. -/
def distLE (a b : NodeId × ℚ) : Prop := a.2 ≤ b.2

instance : DecidableRel distLE := fun a b => inferInstanceAs (Decidable (a.2 ≤ b.2))

instance : IsTotal (NodeId × ℚ) distLE := ⟨fun a b => le_total a.2 b.2⟩

instance : IsTrans (NodeId × ℚ) distLE := ⟨fun _ _ _ hab hbc => le_trans hab hbc⟩

/-- `Tree::find_kth_nearest_nodes`: `None` on an empty tree; otherwise
place rank `min k (n-1)` correctly (selection modelled by a full sort
with the same comparator) and return the pair there. -/
def find_kth_nearest_nodes (t : Tree) (pos : Vec2) (k : Nat) : Option (NodeId × ℚ) :=
  let n := t.nodes.length
  if n = 0 then none
  else
    let sorted := (distList t pos).insertionSort distLE
    if k ≥ n then sorted[n - 1]? else sorted[k]?

end Tree

/-- `attractor::Attractor`. -/
structure Attractor where
  pos : Vec2
  alive : Bool
  owner : Option NodeId
deriving DecidableEq, Repr

instance : Inhabited Attractor := ⟨⟨0, true, none⟩⟩

/-- `attractor::AttractorSet`. -/
structure AttractorSet where
  points : List Attractor
deriving DecidableEq, Repr

namespace AttractorSet

/-- `AttractorSet::from_positions`: alive, unowned attractors. -/
def from_positions (positions : List Vec2) : AttractorSet :=
  ⟨positions.map fun pos => ⟨pos, true, none⟩⟩

end AttractorSet

/-- `influence_buffer::InfluenceBuffer` (sim-core): per-node summed
direction and contribution count (`u32` counts modelled as `Nat`). -/
structure InfluenceBuffer where
  dir : List Vec2
  count : List Nat
deriving DecidableEq, Repr

/-- `Vec::resize(len, v)`: truncate, or extend with copies of `v`. -/
def vecResize {α : Type} (l : List α) (n : Nat) (v : α) : List α :=
  if n ≤ l.length then l.take n else l ++ List.replicate (n - l.length) v

namespace InfluenceBuffer

/-- `InfluenceBuffer::with_len`: all-zero buffer of the given length. -/
def with_len (len : Nat) : InfluenceBuffer :=
  ⟨List.replicate len 0, List.replicate len 0⟩

/-- `InfluenceBuffer::clear`: zero every direction and count, keeping
the length. -/
def clear (b : InfluenceBuffer) : InfluenceBuffer :=
  ⟨b.dir.map fun _ => 0, b.count.map fun _ => 0⟩

/-- `InfluenceBuffer::ensure_len` (sim-core): resize when the length
differs, then clear unconditionally. -/
def ensure_len (b : InfluenceBuffer) (len : Nat) : InfluenceBuffer :=
  let b' := if b.dir.length ≠ len
    then (⟨vecResize b.dir len 0, vecResize b.count len 0⟩ : InfluenceBuffer)
    else b
  b'.clear

/-- `InfluenceBuffer::add`: add `d` into the direction sum at `id` and
bump its count (out-of-bounds, a Rust panic, is totalized to a no-op of
`List.set`). -/
def add (b : InfluenceBuffer) (id : NodeId) (d : Vec2) : InfluenceBuffer :=
  ⟨b.dir.set id (b.dir.getD id 0 + d), b.count.set id (b.count.getD id 0 + 1)⟩

/-- `InfluenceBuffer::avg_dir`: the mean direction, or zero when the
count is zero. -/
def avg_dir (b : InfluenceBuffer) (id : NodeId) : Vec2 :=
  let c := b.count.getD id 0
  if c = 0 then 0 else Vec2.smul (c : ℚ)⁻¹ (b.dir.getD id 0)

/-- `InfluenceBuffer::is_influenced`: nonzero count at `id`. -/
def is_influenced (b : InfluenceBuffer) (id : NodeId) : Bool :=
  b.count.getD id 0 > 0

/-- `InfluenceBuffer::influenced_indices`: indices with nonzero count,
in ascending order. -/
def influenced_indices (b : InfluenceBuffer) : List NodeId :=
  b.count.enum.filterMap fun p => if p.2 > 0 then some p.1 else none

/-- `InfluenceBuffer::merge_from`: pointwise sum of directions and
counts; the length assertion (a Rust panic, firing before any
mutation) is modelled as `none`. -/
def merge_from (b other : InfluenceBuffer) : Option InfluenceBuffer :=
  if b.dir.length = other.dir.length then
    some ⟨List.zipWith (· + ·) b.dir other.dir,
          List.zipWith (· + ·) b.count other.count⟩
  else none

/-- Well-formedness maintained by every constructor in the source: the
two internal arrays have the same length. -/
def wf (b : InfluenceBuffer) : Prop := b.dir.length = b.count.length

instance (b : InfluenceBuffer) : Decidable b.wf :=
  inferInstanceAs (Decidable (_ = _))

end InfluenceBuffer

namespace SrcDup

/-- `ensure_len` of the stray top-level duplicate
(`src/influence_buffer.rs`): when the length differs it only resizes
(retained slots keep their stale contents); it clears only when the
length already matches. -/
def ensure_len (b : InfluenceBuffer) (len : Nat) : InfluenceBuffer :=
  if b.dir.length ≠ len
  then ⟨vecResize b.dir len 0, vecResize b.count len 0⟩
  else b.clear

end SrcDup

/-- `config::Config` (the UI spawn fields, unused by the phase
functions, are omitted). -/
structure Config where
  attract_from_kn : Nat
  kill_from_kn : Nat
  influence_radius : ℚ
  kill_radius : ℚ
  step_len : ℚ
  tropism : Vec2
deriving DecidableEq, Repr

/-- The contribution an attractor makes during `attraction_phase`:
`some (id, dir)` when it is alive, the rank-`attract_from_kn` query
succeeds and the squared distance is strictly below
`influence_radius * influence_radius`; `none` otherwise. -/
def contribOf (t : Tree) (cfg : Config) (a : Attractor) : Option (NodeId × Vec2) :=
  if a.alive then
    match t.find_kth_nearest_nodes a.pos cfg.attract_from_kn with
    | some (id, d2) =>
      if d2 < cfg.influence_radius * cfg.influence_radius then
        some (id, Vec2.normalize_or_zero (a.pos - (t.nodes.getD id default).pos))
      else none
    | none => none
  else none

/-- Loop body of `attraction_phase` over one attractor: dead attractors
(filtered out by `filter(|a| a.alive)`) pass through unchanged; an
alive one has its owner recomputed and, when in range, its normalized
pull direction added into the buffer. -/
def attractionStep (t : Tree) (cfg : Config)
    (st : List Attractor × InfluenceBuffer) (a : Attractor) :
    List Attractor × InfluenceBuffer :=
  if a.alive then
    match t.find_kth_nearest_nodes a.pos cfg.attract_from_kn with
    | some (id, d2) =>
      if d2 < cfg.influence_radius * cfg.influence_radius then
        let dir := Vec2.normalize_or_zero (a.pos - (t.nodes.getD id default).pos)
        (st.1 ++ [{ a with owner := some id }], st.2.add id dir)
      else
        (st.1 ++ [{ a with owner := none }], st.2)
    | none => (st.1 ++ [{ a with owner := none }], st.2)
  else (st.1 ++ [a], st.2)

/-- `phases::attraction_phase`: `ensure_len` the buffer to the node
count, then fold the per-attractor step over the attractor list.
Returns the updated attractor set and buffer (Rust mutates both in
place). -/
def attraction_phase (t : Tree) (attractors : AttractorSet) (cfg : Config)
    (acc : InfluenceBuffer) : AttractorSet × InfluenceBuffer :=
  let acc0 := acc.ensure_len t.nodes.length
  let st := attractors.points.foldl (attractionStep t cfg) ([], acc0)
  (⟨st.1⟩, st.2)

/-- The growth direction computed for an influenced node: mean pull
direction, normalized unless exactly zero, plus tropism, renormalized
(zero if the combined vector has zero length). -/
def growthDir (acc : InfluenceBuffer) (cfg : Config) (id : NodeId) : Vec2 :=
  let dir0 := acc.avg_dir id
  let dir1 := if Vec2.len2 dir0 > 0 then dir0.normalize else dir0
  Vec2.normalize_or_zero (dir1 + cfg.tropism)

/-- The candidate child of an influenced node: parent id, position
`node.pos + dir * step_len`, and the parent's radius. -/
def growthCandidate (t : Tree) (acc : InfluenceBuffer) (cfg : Config)
    (id : NodeId) : NodeId × Vec2 × ℚ :=
  let node := t.nodes.getD id default
  (id, node.pos + Vec2.smul cfg.step_len (growthDir acc cfg id), node.radius)

/-- The `to_add` list collected by `growth_phase` before any mutation:
for each influenced index, the candidate child, unless the parent
already has a child strictly within 0.1 units of the candidate
position. -/
def toAdd (t : Tree) (acc : InfluenceBuffer) (cfg : Config) :
    List (NodeId × Vec2 × ℚ) :=
  acc.influenced_indices.filterMap fun id =>
    let c := growthCandidate t acc cfg id
    if t.has_child_near id c.2.1 (1/10) then none else some c

/-- The commit loop of `growth_phase`: `add_child` every collected
candidate in order, accumulating the new ids. -/
def commitAll (t : Tree) (cands : List (NodeId × Vec2 × ℚ)) :
    Tree × List NodeId :=
  cands.foldl
    (fun st c =>
      let r := st.1.add_child c.1 c.2.1 c.2.2
      (r.1, st.2 ++ [r.2]))
    (t, [])

/-- `phases::growth_phase`: collect candidates from the influenced
indices, then commit them; returns the grown tree and the new ids in
order (Rust mutates the tree in place). -/
def growth_phase (t : Tree) (acc : InfluenceBuffer) (cfg : Config) :
    Tree × List NodeId :=
  commitAll t (toAdd t acc cfg)

/-- Loop body of `kill_phase` over one attractor: an alive attractor
whose rank-`kill_from_kn` node lies strictly within `kill_radius` is
marked dead; everything else is unchanged. -/
def killStep (t : Tree) (cfg : Config) (a : Attractor) : Attractor :=
  if a.alive then
    match t.find_kth_nearest_nodes a.pos cfg.kill_from_kn with
    | some (_, d2) =>
      if d2 < cfg.kill_radius * cfg.kill_radius then { a with alive := false } else a
    | none => a
  else a

/-- `phases::kill_phase`. -/
def kill_phase (t : Tree) (attractors : AttractorSet) (cfg : Config) :
    AttractorSet :=
  ⟨attractors.points.map (killStep t cfg)⟩

/-- One invocation of a phase function, as far as the attractor set is
concerned (`growth_phase` never receives the attractor set; the other
two may be called with any tree, buffer and configuration). -/
inductive PhaseOp where
  | attract (t : Tree) (cfg : Config) (acc : InfluenceBuffer) : PhaseOp
  | grow : PhaseOp
  | kill (t : Tree) (cfg : Config) : PhaseOp

/-- The effect of one phase invocation on the attractor set. -/
def PhaseOp.apply (op : PhaseOp) (s : AttractorSet) : AttractorSet :=
  match op with
  | .attract t cfg acc => (attraction_phase t s cfg acc).1
  | .grow => s
  | .kill t cfg => kill_phase t s cfg

/-- The effect of a sequence of phase invocations on the attractor
set. -/
def runPhases (ops : List PhaseOp) (s : AttractorSet) : AttractorSet :=
  ops.foldl (fun s op => op.apply s) s

/-- A tree none of whose nodes has any child. -/
def Tree.childless (t : Tree) : Prop := ∀ nd ∈ t.nodes, nd.children = []

instance (t : Tree) : Decidable t.childless :=
  inferInstanceAs (Decidable (∀ _ ∈ _, _))

/-- Trees whose children were all created through `growth_phase`:
start from any childless tree (roots / free nodes only) and apply
growth steps, each with a buffer of matching length — the shape the
pipeline guarantees via `ensure_len`. -/
inductive GrowthBuilt : Tree → Prop where
  | base (t : Tree) : t.childless → GrowthBuilt t
  | step (t : Tree) (acc : InfluenceBuffer) (cfg : Config) :
      GrowthBuilt t → acc.count.length = t.nodes.length →
      GrowthBuilt (growth_phase t acc cfg).1

/-! ## Vector algebra -/

instance : AddCommMonoid Vec2 where
  add_assoc a b c := by
    cases a; cases b; cases c
    simp only [Vec2.add_def, Vec2.mk.injEq]
    exact ⟨add_assoc _ _ _, add_assoc _ _ _⟩
  zero_add a := by
    cases a
    simp only [Vec2.add_def, Vec2.zero_x, Vec2.zero_y, Vec2.mk.injEq]
    exact ⟨zero_add _, zero_add _⟩
  add_zero a := by
    cases a
    simp only [Vec2.add_def, Vec2.zero_x, Vec2.zero_y, Vec2.mk.injEq]
    exact ⟨add_zero _, add_zero _⟩
  add_comm a b := by
    cases a; cases b
    simp only [Vec2.add_def, Vec2.mk.injEq]
    exact ⟨add_comm _ _, add_comm _ _⟩
  nsmul := nsmulRec

/-! ## Generic list helpers -/

theorem map_zero_eq_replicate {α β : Type} [Zero β] (l : List α) :
    (l.map fun _ => (0 : β)) = List.replicate l.length 0 := by
  induction l with
  | nil => rfl
  | cons x xs ih => simp [List.replicate_succ, ih]

theorem getD_replicate_zero {β : Type} [Zero β] (n i : Nat) :
    (List.replicate n (0 : β)).getD i 0 = 0 := by
  rcases Nat.lt_or_ge i n with h | h
  · simp [List.getD_eq_getElem?_getD, List.getElem?_replicate, h]
  · rw [List.getD_eq_getElem?_getD, List.getElem?_eq_none (by simpa using h)]; rfl

theorem getD_set_ne {β : Type} (l : List β) (d : β) (i j : Nat) (a : β) (hij : i ≠ j) :
    (l.set i a).getD j d = l.getD j d := by
  simp [List.getD_eq_getElem?_getD, List.getElem?_set_ne hij]

theorem getD_set_self {β : Type} (l : List β) (d : β) (i : Nat) (a : β)
    (h : i < l.length) : (l.set i a).getD i d = a := by
  simp [List.getD_eq_getElem?_getD, List.getElem?_set_self, h]

theorem zipWith_right_comm {β : Type} (f : β → β → β)
    (hf : ∀ x y z, f (f x y) z = f (f x z) y) :
    ∀ l₁ l₂ l₃ : List β,
      List.zipWith f (List.zipWith f l₁ l₂) l₃ = List.zipWith f (List.zipWith f l₁ l₃) l₂
  | [], l₂, l₃ => by simp
  | _ :: _, [], [] => by simp
  | _ :: _, [], _ :: _ => by simp
  | _ :: _, _ :: _, [] => by simp
  | x :: l₁, y :: l₂, z :: l₃ => by
    simp only [List.zipWith_cons_cons]
    exact congrArg₂ (· :: ·) (hf x y z) (zipWith_right_comm f hf l₁ l₂ l₃)

/-! ## InfluenceBuffer lemmas -/

namespace InfluenceBuffer

theorem vecResize_length {α : Type} (l : List α) (n : Nat) (v : α) :
    (vecResize l n v).length = n := by
  unfold vecResize
  by_cases h : n ≤ l.length <;> simp [h] <;> omega

theorem clear_eq (b : InfluenceBuffer) :
    b.clear = ⟨List.replicate b.dir.length 0, List.replicate b.count.length 0⟩ := by
  simp [clear, map_zero_eq_replicate]

/-- On a well-formed buffer, `ensure_len n` always produces the all-zero
buffer of length `n`, whether or not it had to resize. -/
theorem ensure_len_eq_with_len (b : InfluenceBuffer) (hwf : b.wf) (n : Nat) :
    b.ensure_len n = with_len n := by
  unfold ensure_len with_len
  by_cases h : b.dir.length = n
  · simp only [h, ne_eq, not_true_eq_false, if_false, clear_eq]
    have hc : b.count.length = n := hwf ▸ h
    rw [hc]
  · simp only [ne_eq, h, not_false_eq_true, if_true, clear_eq]
    simp [vecResize_length]

theorem add_dir_length (b : InfluenceBuffer) (id : NodeId) (d : Vec2) :
    (b.add id d).dir.length = b.dir.length := by simp [add]

theorem add_count_length (b : InfluenceBuffer) (id : NodeId) (d : Vec2) :
    (b.add id d).count.length = b.count.length := by simp [add]

theorem add_count_getD_self (b : InfluenceBuffer) (id : NodeId) (d : Vec2)
    (h : id < b.count.length) :
    (b.add id d).count.getD id 0 = b.count.getD id 0 + 1 :=
  getD_set_self _ _ _ _ h

theorem add_count_getD_ne (b : InfluenceBuffer) (id j : NodeId) (d : Vec2)
    (h : id ≠ j) : (b.add id d).count.getD j 0 = b.count.getD j 0 :=
  getD_set_ne _ _ _ _ _ h

theorem add_dir_getD_self (b : InfluenceBuffer) (id : NodeId) (d : Vec2)
    (h : id < b.dir.length) :
    (b.add id d).dir.getD id 0 = b.dir.getD id 0 + d :=
  getD_set_self _ _ _ _ h

theorem add_dir_getD_ne (b : InfluenceBuffer) (id j : NodeId) (d : Vec2)
    (h : id ≠ j) : (b.add id d).dir.getD j 0 = b.dir.getD j 0 :=
  getD_set_ne _ _ _ _ _ h

/-- Iterated `add` at a fixed index (the situation of the `avg_dir`
averaging property). -/
def addAll (b : InfluenceBuffer) (id : NodeId) (vs : List Vec2) : InfluenceBuffer :=
  vs.foldl (fun b v => b.add id v) b

theorem addAll_spec (id : NodeId) :
    ∀ (vs : List Vec2) (b : InfluenceBuffer), id < b.dir.length → id < b.count.length →
      (b.addAll id vs).count.getD id 0 = b.count.getD id 0 + vs.length ∧
      (b.addAll id vs).dir.getD id 0 = b.dir.getD id 0 + vs.sum
  | [], b, _, _ => by simp [addAll]
  | v :: vs, b, hd, hc => by
    have ih := addAll_spec id vs (b.add id v)
      (by rw [add_dir_length]; exact hd) (by rw [add_count_length]; exact hc)
    have h1 : (b.addAll id (v :: vs)) = (b.add id v).addAll id vs := rfl
    rw [h1]
    constructor
    · rw [ih.1, add_count_getD_self b id v hc, List.length_cons]
      omega
    · rw [ih.2, add_dir_getD_self b id v hd, List.sum_cons]
      rw [add_assoc, add_comm v vs.sum, ← add_assoc]

theorem with_len_dir_length (n : Nat) : (with_len n).dir.length = n := by
  simp [with_len]

theorem with_len_count_length (n : Nat) : (with_len n).count.length = n := by
  simp [with_len]

theorem with_len_getD_count (n i : Nat) : (with_len n).count.getD i 0 = 0 :=
  getD_replicate_zero n i

theorem with_len_getD_dir (n i : Nat) : (with_len n).dir.getD i 0 = 0 :=
  getD_replicate_zero n i

end InfluenceBuffer

/-! ## Attraction-loop decomposition -/

/-- The per-attractor owner update performed by `attraction_phase`
(the buffer side is `contribOf`). -/
def attractorUpdate (t : Tree) (cfg : Config) (a : Attractor) : Attractor :=
  if a.alive then
    match t.find_kth_nearest_nodes a.pos cfg.attract_from_kn with
    | some (id, d2) =>
      if d2 < cfg.influence_radius * cfg.influence_radius then
        { a with owner := some id }
      else { a with owner := none }
    | none => { a with owner := none }
  else a

/-- The buffer update contributed by a single attractor (the loop body
of the buffer side of `attraction_phase`). -/
def contribFold (t : Tree) (cfg : Config) (b : InfluenceBuffer) (a : Attractor) :
    InfluenceBuffer :=
  match contribOf t cfg a with
  | some (id, d) => b.add id d
  | none => b

/-- The buffer side of the attraction loop in isolation: fold the
contributions of a list of attractors into a buffer. -/
def accumContribs (t : Tree) (cfg : Config) (b : InfluenceBuffer)
    (l : List Attractor) : InfluenceBuffer :=
  l.foldl (contribFold t cfg) b

theorem attractionStep_eq (t : Tree) (cfg : Config) (ps : List Attractor)
    (b : InfluenceBuffer) (a : Attractor) :
    attractionStep t cfg (ps, b) a =
      (ps ++ [attractorUpdate t cfg a], contribFold t cfg b a) := by
  unfold attractionStep attractorUpdate contribFold contribOf
  by_cases ha : a.alive
  · simp only [ha, if_true]
    cases hfk : t.find_kth_nearest_nodes a.pos cfg.attract_from_kn with
    | none => rfl
    | some p =>
      obtain ⟨id, d2⟩ := p
      by_cases hd : d2 < cfg.influence_radius * cfg.influence_radius
      · simp only [hd, if_true]
      · simp only [hd, if_false]
  · simp [ha]

theorem attraction_foldl_eq (t : Tree) (cfg : Config) :
    ∀ (l : List Attractor) (ps : List Attractor) (b : InfluenceBuffer),
      l.foldl (attractionStep t cfg) (ps, b) =
        (ps ++ l.map (attractorUpdate t cfg), accumContribs t cfg b l)
  | [], ps, b => by simp [accumContribs]
  | a :: l, ps, b => by
    rw [List.foldl_cons, attractionStep_eq,
      attraction_foldl_eq t cfg l (ps ++ [attractorUpdate t cfg a]) (contribFold t cfg b a)]
    simp [accumContribs]

/-- `attraction_phase` updates each attractor independently via
`attractorUpdate`. -/
theorem attraction_phase_points (t : Tree) (s : AttractorSet) (cfg : Config)
    (acc : InfluenceBuffer) :
    (attraction_phase t s cfg acc).1.points = s.points.map (attractorUpdate t cfg) := by
  dsimp only [attraction_phase]
  rw [attraction_foldl_eq]
  simp

/-- The buffer produced by `attraction_phase` is the fold of the
individual contributions into the freshly cleared buffer. -/
theorem attraction_phase_buffer (t : Tree) (s : AttractorSet) (cfg : Config)
    (acc : InfluenceBuffer) :
    (attraction_phase t s cfg acc).2 =
      accumContribs t cfg (acc.ensure_len t.nodes.length) s.points := by
  dsimp only [attraction_phase]
  rw [attraction_foldl_eq]

/-! ## Claim theorems: influence buffer -/

/-- C3.  The claimed resize-or-clear behaviour of `ensure_len` holds
for the `sim-core` implementation but is violated by the stray
duplicate at `src/influence_buffer.rs`: at the failing input (a
length-1 buffer holding direction (1,0), count 1, resized to length 2)
the duplicate resizes without clearing, leaving the stale direction
(1,0) and count 1 in slot 0, while the `sim-core` version yields the
all-zero buffer of length 2 as the claim demands. -/
theorem C3_ensure_len_srcdup_bug :
    (SrcDup.ensure_len ⟨[⟨1, 0⟩], [1]⟩ 2).dir.getD 0 0 = (⟨1, 0⟩ : Vec2) ∧
    (SrcDup.ensure_len ⟨[⟨1, 0⟩], [1]⟩ 2).count.getD 0 0 = 1 ∧
    (SrcDup.ensure_len ⟨[⟨1, 0⟩], [1]⟩ 2).dir.length = 2 ∧
    SrcDup.ensure_len ⟨[⟨1, 0⟩], [1]⟩ 2 ≠ InfluenceBuffer.with_len 2 ∧
    InfluenceBuffer.ensure_len ⟨[⟨1, 0⟩], [1]⟩ 2 = InfluenceBuffer.with_len 2 := by
  refine ⟨?_, ?_, ?_, ?_, ?_⟩
  · norm_num [SrcDup.ensure_len, vecResize]
  · norm_num [SrcDup.ensure_len, vecResize]
  · norm_num [SrcDup.ensure_len, vecResize]
  · intro h
    have : (SrcDup.ensure_len ⟨[⟨1, 0⟩], [1]⟩ 2).count.getD 0 0 =
        (InfluenceBuffer.with_len 2).count.getD 0 0 := by rw [h]
    rw [InfluenceBuffer.with_len_getD_count] at this
    norm_num [SrcDup.ensure_len, vecResize] at this
  · exact InfluenceBuffer.ensure_len_eq_with_len _ (by decide) 2

/-- C4.  `avg_dir` at an index with zero count is exactly the zero
vector, and after adding `v1..vn` at an in-bounds index of a fresh
buffer it is the arithmetic mean `(v1 + ... + vn) / n` (zero when the
list of contributions is empty). -/
theorem C4_avg_dir_mean (b : InfluenceBuffer) (id id' m : Nat) (vs : List Vec2)
    (hzero : b.count.getD id' 0 = 0) (hid : id < m) :
    b.avg_dir id' = 0 ∧
    ((InfluenceBuffer.with_len m).addAll id vs).avg_dir id =
      (if vs.length = 0 then 0 else Vec2.smul ((vs.length : ℚ))⁻¹ vs.sum) := by
  constructor
  · simp only [InfluenceBuffer.avg_dir]
    rw [hzero]
    simp
  · have h := InfluenceBuffer.addAll_spec id vs (InfluenceBuffer.with_len m)
      (by rw [InfluenceBuffer.with_len_dir_length]; exact hid)
      (by rw [InfluenceBuffer.with_len_count_length]; exact hid)
    rw [InfluenceBuffer.with_len_getD_count, InfluenceBuffer.with_len_getD_dir] at h
    rw [InfluenceBuffer.avg_dir, h.1, h.2]
    simp only [Nat.zero_add, zero_add]

/-- Witness for C4 at a concrete input: index 0 of a length-2 fresh
buffer, contributions (1,0) and (3,0); the zero-count part is
exercised at an index of a buffer whose count there is 0. -/
theorem C4_avg_dir_mean_witness :
    (⟨[⟨5, 5⟩], [0]⟩ : InfluenceBuffer).count.getD 0 0 = 0 ∧ (0 : Nat) < 2 ∧
    ((⟨[⟨5, 5⟩], [0]⟩ : InfluenceBuffer).avg_dir 0 = 0 ∧
      ((InfluenceBuffer.with_len 2).addAll 0 [⟨1, 0⟩, ⟨3, 0⟩]).avg_dir 0 =
        (if ([⟨1, 0⟩, ⟨3, 0⟩] : List Vec2).length = 0 then 0
         else Vec2.smul ((([⟨1, 0⟩, ⟨3, 0⟩] : List Vec2).length : ℚ))⁻¹
           ([⟨1, 0⟩, ⟨3, 0⟩] : List Vec2).sum)) :=
  ⟨rfl, by decide, C4_avg_dir_mean ⟨[⟨5, 5⟩], [0]⟩ 0 0 2 [⟨1, 0⟩, ⟨3, 0⟩] rfl (by decide)⟩

/-- C5.  Merging buffer `A` and then `B` into a base buffer of the same
length produces exactly the same buffer (pointwise direction sums and
counts) as merging `B` and then `A`; and `merge_from` on buffers of
different lengths fails before mutating anything (modelled as the
absent result). -/
theorem C5_merge_from_comm (base A B : InfluenceBuffer)
    (hA : base.dir.length = A.dir.length) (hB : base.dir.length = B.dir.length) :
    ((base.merge_from A).bind fun x => x.merge_from B) =
      ((base.merge_from B).bind fun x => x.merge_from A) ∧
    ∀ b other : InfluenceBuffer, b.dir.length ≠ other.dir.length →
      b.merge_from other = none := by
  constructor
  · have hzA : (List.zipWith (· + ·) base.dir A.dir).length = base.dir.length := by
      rw [List.length_zipWith, ← hA, Nat.min_self]
    have hzB : (List.zipWith (· + ·) base.dir B.dir).length = base.dir.length := by
      rw [List.length_zipWith, ← hB, Nat.min_self]
    have e1 : base.merge_from A =
        some ⟨List.zipWith (· + ·) base.dir A.dir,
              List.zipWith (· + ·) base.count A.count⟩ := by
      rw [InfluenceBuffer.merge_from, if_pos hA]
    have e2 : base.merge_from B =
        some ⟨List.zipWith (· + ·) base.dir B.dir,
              List.zipWith (· + ·) base.count B.count⟩ := by
      rw [InfluenceBuffer.merge_from, if_pos hB]
    rw [e1, e2, Option.some_bind, Option.some_bind,
      InfluenceBuffer.merge_from, InfluenceBuffer.merge_from]
    rw [if_pos (hzA.trans hB), if_pos (hzB.trans hA)]
    rw [Option.some_inj, InfluenceBuffer.mk.injEq]
    constructor
    · exact zipWith_right_comm _ (fun x y z => add_right_comm x y z) _ _ _
    · exact zipWith_right_comm _ (fun x y z => Nat.add_right_comm x y z) _ _ _
  · intro b other h
    simp [InfluenceBuffer.merge_from, h]

/-- Witness for C5 at concrete length-1 buffers. -/
theorem C5_merge_from_comm_witness :
    (⟨[⟨0, 0⟩], [0]⟩ : InfluenceBuffer).dir.length =
        (⟨[⟨1, 0⟩], [1]⟩ : InfluenceBuffer).dir.length ∧
    (⟨[⟨0, 0⟩], [0]⟩ : InfluenceBuffer).dir.length =
        (⟨[⟨0, 2⟩], [3]⟩ : InfluenceBuffer).dir.length ∧
    ((((⟨[⟨0, 0⟩], [0]⟩ : InfluenceBuffer).merge_from ⟨[⟨1, 0⟩], [1]⟩).bind
        fun x => x.merge_from ⟨[⟨0, 2⟩], [3]⟩) =
      (((⟨[⟨0, 0⟩], [0]⟩ : InfluenceBuffer).merge_from ⟨[⟨0, 2⟩], [3]⟩).bind
        fun x => x.merge_from ⟨[⟨1, 0⟩], [1]⟩) ∧
    ∀ b other : InfluenceBuffer, b.dir.length ≠ other.dir.length →
      b.merge_from other = none) :=
  ⟨rfl, rfl, C5_merge_from_comm ⟨[⟨0, 0⟩], [0]⟩ ⟨[⟨1, 0⟩], [1]⟩ ⟨[⟨0, 2⟩], [3]⟩ rfl rfl⟩

/-! ## Claim theorems: liveness and empty tree -/

theorem getD_map_of_lt {α β : Type} (f : α → β) (l : List α) (i : Nat) (d : β)
    (d' : α) (h : i < l.length) : (l.map f).getD i d = f (l.getD i d') := by
  rw [List.getD_eq_getElem?_getD, List.getD_eq_getElem?_getD,
    List.getElem?_eq_getElem h,
    List.getElem?_eq_getElem (by simpa using h : i < (l.map f).length)]
  simp

theorem attractorUpdate_dead (t : Tree) (cfg : Config) (a : Attractor)
    (h : a.alive = false) : attractorUpdate t cfg a = a := by
  simp [attractorUpdate, h]

theorem killStep_dead (t : Tree) (cfg : Config) (a : Attractor)
    (h : a.alive = false) : killStep t cfg a = a := by
  simp [killStep, h]

/-- C7.  Attractor liveness is monotone: no sequence of phase
invocations (each with arbitrary tree, configuration and buffer) ever
revives a dead attractor; and the kill step either leaves an attractor
unchanged or performs exactly the `true → false` transition. -/
theorem C7_liveness_monotone :
    (∀ (ops : List PhaseOp) (s : AttractorSet) (i : Nat),
        (s.points.getD i default).alive = false →
        ((runPhases ops s).points.getD i default).alive = false) ∧
    (∀ (t : Tree) (cfg : Config) (a : Attractor),
        killStep t cfg a = a ∨ killStep t cfg a = { a with alive := false }) := by
  constructor
  · intro ops
    induction ops with
    | nil => intro s i h; simpa [runPhases] using h
    | cons op ops ih =>
      intro s i h
      have hstep : ((op.apply s).points.getD i default).alive = false := by
        rcases Nat.lt_or_ge i s.points.length with hi | hi
        · cases op with
          | attract t cfg acc =>
            show (((attraction_phase t s cfg acc).1).points.getD i default).alive = false
            rw [attraction_phase_points, getD_map_of_lt _ _ _ _ default hi,
              attractorUpdate_dead t cfg _ h]
            exact h
          | grow => exact h
          | kill t cfg =>
            show ((kill_phase t s cfg).points.getD i default).alive = false
            rw [kill_phase, getD_map_of_lt _ _ _ _ default hi,
              killStep_dead t cfg _ h]
            exact h
        · rw [List.getD_eq_default _ _ hi] at h
          cases h
      exact ih (op.apply s) i hstep
  · intro t cfg a
    unfold killStep
    by_cases ha : a.alive
    · cases hfk : t.find_kth_nearest_nodes a.pos cfg.kill_from_kn with
      | none => left; simp [ha]
      | some p =>
        obtain ⟨id, d2⟩ := p
        by_cases hd : d2 < cfg.kill_radius * cfg.kill_radius
        · right; simp [ha, hd]
        · left; simp [ha, hd]
    · left; simp [ha]

/-- Witness for C7: a dead attractor stays dead across an (empty)
phase sequence. -/
theorem C7_liveness_monotone_witness :
    ((⟨[⟨⟨0, 0⟩, false, none⟩]⟩ : AttractorSet).points.getD 0 default).alive = false ∧
    ((runPhases [] ⟨[⟨⟨0, 0⟩, false, none⟩]⟩).points.getD 0 default).alive = false :=
  ⟨rfl, C7_liveness_monotone.1 [] ⟨[⟨⟨0, 0⟩, false, none⟩]⟩ 0 rfl⟩

theorem find_kth_empty (pos : Vec2) (k : Nat) :
    (Tree.mk []).find_kth_nearest_nodes pos k = none := rfl

theorem contribOf_empty (cfg : Config) (a : Attractor) :
    contribOf ⟨[]⟩ cfg a = none := by
  unfold contribOf
  by_cases ha : a.alive <;> simp [ha, find_kth_empty]

theorem accumContribs_of_none (t : Tree) (cfg : Config)
    (h : ∀ a, contribOf t cfg a = none) :
    ∀ (l : List Attractor) (b : InfluenceBuffer), accumContribs t cfg b l = b
  | [], b => rfl
  | a :: l, b => by
    rw [accumContribs, List.foldl_cons]
    have : contribFold t cfg b a = b := by rw [contribFold, h a]
    rw [this]
    exact accumContribs_of_none t cfg h l b

/-- C2 counterexample.  The claim says `attraction_phase` on an empty
tree leaves every attractor's owner unchanged; but the code executes
`a.owner = None` for every alive attractor, so an attractor entering
with owner `Some 0` comes out with owner `None`. -/
theorem C2_counterexample :
    ((attraction_phase ⟨[]⟩ ⟨[⟨⟨0, 0⟩, true, some 0⟩]⟩ ⟨0, 0, 1, 1, 1, ⟨0, 0⟩⟩
        (InfluenceBuffer.with_len 0)).1.points.getD 0 default).owner = none ∧
    ((⟨[⟨⟨0, 0⟩, true, some 0⟩]⟩ : AttractorSet).points.getD 0 default).owner = some 0 := by
  constructor
  · rw [attraction_phase_points, getD_map_of_lt _ _ _ _ default (by decide)]
    rfl
  · rfl

/-- C2, amended.  On an empty tree every k-th-nearest query returns
the absent value; `kill_phase` leaves the attractor set entirely
unchanged; `attraction_phase` adds no influence (the buffer ends as
the cleared empty buffer) and preserves positions and liveness, but
sets every alive attractor's owner to `None` (so owners are unchanged
only when already absent). -/
theorem C2_empty_tree_amended (k : Nat) (pos : Vec2) (s : AttractorSet)
    (cfg : Config) (acc : InfluenceBuffer) (hwf : acc.wf) :
    (Tree.mk []).find_kth_nearest_nodes pos k = none ∧
    kill_phase ⟨[]⟩ s cfg = s ∧
    (attraction_phase ⟨[]⟩ s cfg acc).2 = InfluenceBuffer.with_len 0 ∧
    (attraction_phase ⟨[]⟩ s cfg acc).1.points =
      s.points.map fun a => if a.alive then { a with owner := none } else a := by
  refine ⟨rfl, ?_, ?_, ?_⟩
  · have hk : ∀ a : Attractor, killStep ⟨[]⟩ cfg a = a := by
      intro a
      unfold killStep
      by_cases ha : a.alive <;> simp [ha, find_kth_empty]
    rw [kill_phase]
    cases s with
    | mk points =>
      simp only [AttractorSet.mk.injEq]
      rw [List.map_congr_left fun a _ => hk a]
      exact List.map_id points
  · rw [attraction_phase_buffer,
      accumContribs_of_none ⟨[]⟩ cfg (contribOf_empty cfg) s.points]
    exact InfluenceBuffer.ensure_len_eq_with_len acc hwf 0
  · rw [attraction_phase_points]
    apply List.map_congr_left
    intro a _
    unfold attractorUpdate
    by_cases ha : a.alive <;> simp [ha, find_kth_empty]

/-- Witness for C2's amended statement at a concrete input. -/
theorem C2_empty_tree_amended_witness :
    (⟨[⟨0, 0⟩], [0]⟩ : InfluenceBuffer).wf ∧
    ((Tree.mk []).find_kth_nearest_nodes ⟨1, 2⟩ 7 = none ∧
      kill_phase ⟨[]⟩ ⟨[⟨⟨3, 4⟩, true, some 2⟩]⟩ ⟨0, 0, 1, 1, 1, ⟨0, 0⟩⟩ =
        ⟨[⟨⟨3, 4⟩, true, some 2⟩]⟩ ∧
      (attraction_phase ⟨[]⟩ ⟨[⟨⟨3, 4⟩, true, some 2⟩]⟩ ⟨0, 0, 1, 1, 1, ⟨0, 0⟩⟩
          ⟨[⟨0, 0⟩], [0]⟩).2 = InfluenceBuffer.with_len 0 ∧
      (attraction_phase ⟨[]⟩ ⟨[⟨⟨3, 4⟩, true, some 2⟩]⟩ ⟨0, 0, 1, 1, 1, ⟨0, 0⟩⟩
          ⟨[⟨0, 0⟩], [0]⟩).1.points =
        ([⟨⟨3, 4⟩, true, some 2⟩] : List Attractor).map
          fun a => if a.alive then { a with owner := none } else a) :=
  ⟨rfl, C2_empty_tree_amended 7 ⟨1, 2⟩ ⟨[⟨⟨3, 4⟩, true, some 2⟩]⟩
    ⟨0, 0, 1, 1, 1, ⟨0, 0⟩⟩ ⟨[⟨0, 0⟩], [0]⟩ rfl⟩

/-! ## Claim theorems: neighbour queries -/

namespace Tree

theorem distList_length (t : Tree) (pos : Vec2) :
    (distList t pos).length = t.nodes.length := by
  simp [distList]

theorem sorted_distList_length (t : Tree) (pos : Vec2) :
    ((distList t pos).insertionSort distLE).length = t.nodes.length :=
  (List.perm_insertionSort distLE (distList t pos)).length_eq.trans
    (distList_length t pos)

theorem find_kth_eq (t : Tree) (pos : Vec2) (k : Nat) (h : t.nodes.length ≠ 0) :
    t.find_kth_nearest_nodes pos k =
      (if t.nodes.length ≤ k
        then ((distList t pos).insertionSort distLE)[t.nodes.length - 1]?
        else ((distList t pos).insertionSort distLE)[k]?) := by
  rw [find_kth_nearest_nodes]
  simp only [h, if_false, ge_iff_le]

/-- The loop body of `find_nearest_node` expressed on `(id, dist2)`
pairs. -/
def minFold (acc : Option (NodeId × ℚ)) (p : NodeId × ℚ) : Option (NodeId × ℚ) :=
  match acc with
  | none => some p
  | some (bid, bd2) => if p.2 < bd2 then some p else some (bid, bd2)

theorem find_nearest_eq_foldl (t : Tree) (pos : Vec2) :
    t.find_nearest_node pos = (distList t pos).foldl minFold none := by
  rw [find_nearest_node, distList, List.foldl_map]
  rfl

theorem foldl_minFold_some :
    ∀ (L : List (NodeId × ℚ)) (b : NodeId × ℚ),
      ∃ r, L.foldl minFold (some b) = some r ∧ (r = b ∨ r ∈ L) ∧ r.2 ≤ b.2 ∧
        ∀ x ∈ L, r.2 ≤ x.2
  | [], b => ⟨b, rfl, Or.inl rfl, le_refl _, by simp⟩
  | p :: L, b => by
    rw [List.foldl_cons]
    by_cases hp : p.2 < b.2
    · have hstep : minFold (some b) p = some p := by
        rw [minFold]
        simp [hp]
      rw [hstep]
      obtain ⟨r, hr, hmem, hle, hall⟩ := foldl_minFold_some L p
      refine ⟨r, hr, ?_, ?_, ?_⟩
      · right
        rcases hmem with h | h
        · exact h ▸ List.mem_cons_self p L
        · exact List.mem_cons_of_mem p h
      · exact le_of_lt (lt_of_le_of_lt hle hp)
      · intro x hx
        rcases List.mem_cons.mp hx with h | h
        · exact h ▸ hle
        · exact hall x h
    · have hstep : minFold (some b) p = some b := by
        rw [minFold]
        simp [hp]
      rw [hstep]
      obtain ⟨r, hr, hmem, hle, hall⟩ := foldl_minFold_some L b
      refine ⟨r, hr, ?_, hle, ?_⟩
      · rcases hmem with h | h
        · exact Or.inl h
        · exact Or.inr (List.mem_cons_of_mem p h)
      · intro x hx
        rcases List.mem_cons.mp hx with h | h
        · exact h ▸ le_trans hle (not_lt.mp hp)
        · exact hall x h

theorem foldl_minFold_none (L : List (NodeId × ℚ)) (h : L ≠ []) :
    ∃ r, L.foldl minFold none = some r ∧ r ∈ L ∧ ∀ x ∈ L, r.2 ≤ x.2 := by
  obtain ⟨p, L', rfl⟩ := List.exists_cons_of_ne_nil h
  rw [List.foldl_cons]
  have hstep : minFold none p = some p := rfl
  rw [hstep]
  obtain ⟨r, hr, hmem, hle, hall⟩ := foldl_minFold_some L' p
  refine ⟨r, hr, ?_, ?_⟩
  · rcases hmem with h | h
    · exact h ▸ List.mem_cons_self p L'
    · exact List.mem_cons_of_mem p h
  · intro x hx
    rcases List.mem_cons.mp hx with h | h
    · exact h ▸ hle
    · exact hall x h

end Tree

/-- C1.  On a nonempty tree, `find_kth_nearest_nodes` always returns a
value; when `k` is at least the node count the result is that of rank
`n-1` (farthest-node clamping); and the returned pair sits at rank
`min k (n-1)` of a distance-sorted arrangement of all (id, squared
distance) pairs. -/
theorem C1_find_kth_rank (t : Tree) (pos : Vec2) (k : Nat)
    (h : 0 < t.nodes.length) :
    (t.find_kth_nearest_nodes pos k).isSome = true ∧
    (t.nodes.length ≤ k →
      t.find_kth_nearest_nodes pos k =
        t.find_kth_nearest_nodes pos (t.nodes.length - 1)) ∧
    ∃ l : List (NodeId × ℚ),
      (Tree.distList t pos).Perm l ∧ l.Sorted Tree.distLE ∧
      t.find_kth_nearest_nodes pos k = l[min k (t.nodes.length - 1)]? := by
  have hne : t.nodes.length ≠ 0 := Nat.pos_iff_ne_zero.mp h
  have hslen : ((Tree.distList t pos).insertionSort Tree.distLE).length =
      t.nodes.length := Tree.sorted_distList_length t pos
  refine ⟨?_, ?_, (Tree.distList t pos).insertionSort Tree.distLE,
    (List.perm_insertionSort Tree.distLE (Tree.distList t pos)).symm,
    List.sorted_insertionSort Tree.distLE (Tree.distList t pos), ?_⟩
  · rw [Tree.find_kth_eq t pos k hne]
    by_cases hk : t.nodes.length ≤ k
    · rw [if_pos hk, List.getElem?_eq_getElem (by omega)]
      rfl
    · rw [if_neg hk, List.getElem?_eq_getElem (by omega)]
      rfl
  · intro hk
    rw [Tree.find_kth_eq t pos k hne, Tree.find_kth_eq t pos _ hne,
      if_pos hk, if_neg (by omega)]
  · rw [Tree.find_kth_eq t pos k hne]
    by_cases hk : t.nodes.length ≤ k
    · rw [if_pos hk, Nat.min_eq_right (by omega)]
    · rw [if_neg hk, Nat.min_eq_left (by omega)]

/-- Witness for C1 at a two-node tree with `k = 5 ≥ 2`. -/
theorem C1_find_kth_rank_witness :
    0 < (Tree.mk [⟨⟨0, 0⟩, 1, none, []⟩, ⟨⟨3, 0⟩, 1, none, []⟩]).nodes.length ∧
    (((Tree.mk [⟨⟨0, 0⟩, 1, none, []⟩,
        ⟨⟨3, 0⟩, 1, none, []⟩]).find_kth_nearest_nodes ⟨1, 0⟩ 5).isSome = true ∧
      ((Tree.mk [⟨⟨0, 0⟩, 1, none, []⟩, ⟨⟨3, 0⟩, 1, none, []⟩]).nodes.length ≤ 5 →
        (Tree.mk [⟨⟨0, 0⟩, 1, none, []⟩,
            ⟨⟨3, 0⟩, 1, none, []⟩]).find_kth_nearest_nodes ⟨1, 0⟩ 5 =
          (Tree.mk [⟨⟨0, 0⟩, 1, none, []⟩,
            ⟨⟨3, 0⟩, 1, none, []⟩]).find_kth_nearest_nodes ⟨1, 0⟩
            ((Tree.mk [⟨⟨0, 0⟩, 1, none, []⟩,
              ⟨⟨3, 0⟩, 1, none, []⟩]).nodes.length - 1)) ∧
      ∃ l : List (NodeId × ℚ),
        (Tree.distList (Tree.mk [⟨⟨0, 0⟩, 1, none, []⟩, ⟨⟨3, 0⟩, 1, none, []⟩])
            ⟨1, 0⟩).Perm l ∧
        l.Sorted Tree.distLE ∧
        (Tree.mk [⟨⟨0, 0⟩, 1, none, []⟩,
            ⟨⟨3, 0⟩, 1, none, []⟩]).find_kth_nearest_nodes ⟨1, 0⟩ 5 =
          l[min 5 ((Tree.mk [⟨⟨0, 0⟩, 1, none, []⟩,
            ⟨⟨3, 0⟩, 1, none, []⟩]).nodes.length - 1)]?) :=
  ⟨by decide, C1_find_kth_rank (Tree.mk [⟨⟨0, 0⟩, 1, none, []⟩, ⟨⟨3, 0⟩, 1, none, []⟩])
    ⟨1, 0⟩ 5 (by decide)⟩

/-- C10.  On a nonempty tree, both `find_kth_nearest_nodes` at rank 0
and `find_nearest_node` return a pair of the distance list achieving
the minimal squared distance; and when all squared distances are
pairwise distinct the two results are the same pair. -/
theorem C10_kth_zero_vs_nearest (t : Tree) (pos : Vec2)
    (h : 0 < t.nodes.length) :
    (∃ r1, t.find_kth_nearest_nodes pos 0 = some r1 ∧ r1 ∈ Tree.distList t pos ∧
        ∀ x ∈ Tree.distList t pos, r1.2 ≤ x.2) ∧
    (∃ r2, t.find_nearest_node pos = some r2 ∧ r2 ∈ Tree.distList t pos ∧
        ∀ x ∈ Tree.distList t pos, r2.2 ≤ x.2) ∧
    ((Tree.distList t pos).Pairwise (fun a b => a.2 ≠ b.2) →
      t.find_kth_nearest_nodes pos 0 = t.find_nearest_node pos) := by
  have hne : t.nodes.length ≠ 0 := Nat.pos_iff_ne_zero.mp h
  have hslen : ((Tree.distList t pos).insertionSort Tree.distLE).length =
      t.nodes.length := Tree.sorted_distList_length t pos
  have hperm := List.perm_insertionSort Tree.distLE (Tree.distList t pos)
  have hsorted := List.sorted_insertionSort Tree.distLE (Tree.distList t pos)
  have P1 : ∃ r1, t.find_kth_nearest_nodes pos 0 = some r1 ∧
      r1 ∈ Tree.distList t pos ∧ ∀ x ∈ Tree.distList t pos, r1.2 ≤ x.2 := by
    obtain ⟨hd, tl, hcons⟩ :=
      List.exists_cons_of_ne_nil
        (fun hnil => hne (by rw [← hslen, hnil]; rfl) :
          (Tree.distList t pos).insertionSort Tree.distLE ≠ [])
    refine ⟨hd, ?_, ?_, ?_⟩
    · rw [Tree.find_kth_eq t pos 0 hne, if_neg (by omega), hcons,
        List.getElem?_cons_zero]
    · exact hperm.mem_iff.mp (hcons ▸ List.mem_cons_self hd tl)
    · intro x hx
      have hx' : x ∈ hd :: tl := hcons ▸ hperm.mem_iff.mpr hx
      rcases List.mem_cons.mp hx' with hxe | hxt
      · exact hxe ▸ le_refl _
      · exact (List.sorted_cons.mp (hcons ▸ hsorted)).1 x hxt
  have P2 : ∃ r2, t.find_nearest_node pos = some r2 ∧
      r2 ∈ Tree.distList t pos ∧ ∀ x ∈ Tree.distList t pos, r2.2 ≤ x.2 := by
    have hLne : Tree.distList t pos ≠ [] := by
      intro hnil
      exact hne (by rw [← Tree.distList_length t pos, hnil]; rfl)
    obtain ⟨r, hr, hmem, hall⟩ := Tree.foldl_minFold_none (Tree.distList t pos) hLne
    exact ⟨r, (Tree.find_nearest_eq_foldl t pos).trans hr, hmem, hall⟩
  refine ⟨P1, P2, ?_⟩
  intro hdist
  obtain ⟨r1, e1, m1, min1⟩ := P1
  obtain ⟨r2, e2, m2, min2⟩ := P2
  have hval : r1.2 = r2.2 := le_antisymm (min1 r2 m2) (min2 r1 m1)
  by_cases her : r1 = r2
  · rw [e1, e2, her]
  · have hsym : Symmetric (fun a b : NodeId × ℚ => a.2 ≠ b.2) :=
      fun a b hab hba => hab hba.symm
    exact absurd hval (hdist.forall hsym m1 m2 her)

/-- Witness for C10 at a two-node tree whose squared distances to the
query are distinct. -/
theorem C10_kth_zero_vs_nearest_witness :
    0 < (Tree.mk [⟨⟨0, 0⟩, 1, none, []⟩, ⟨⟨3, 0⟩, 1, none, []⟩]).nodes.length ∧
    ((∃ r1, (Tree.mk [⟨⟨0, 0⟩, 1, none, []⟩,
          ⟨⟨3, 0⟩, 1, none, []⟩]).find_kth_nearest_nodes ⟨1, 0⟩ 0 = some r1 ∧
        r1 ∈ Tree.distList (Tree.mk [⟨⟨0, 0⟩, 1, none, []⟩,
          ⟨⟨3, 0⟩, 1, none, []⟩]) ⟨1, 0⟩ ∧
        ∀ x ∈ Tree.distList (Tree.mk [⟨⟨0, 0⟩, 1, none, []⟩,
          ⟨⟨3, 0⟩, 1, none, []⟩]) ⟨1, 0⟩, r1.2 ≤ x.2) ∧
      (∃ r2, (Tree.mk [⟨⟨0, 0⟩, 1, none, []⟩,
          ⟨⟨3, 0⟩, 1, none, []⟩]).find_nearest_node ⟨1, 0⟩ = some r2 ∧
        r2 ∈ Tree.distList (Tree.mk [⟨⟨0, 0⟩, 1, none, []⟩,
          ⟨⟨3, 0⟩, 1, none, []⟩]) ⟨1, 0⟩ ∧
        ∀ x ∈ Tree.distList (Tree.mk [⟨⟨0, 0⟩, 1, none, []⟩,
          ⟨⟨3, 0⟩, 1, none, []⟩]) ⟨1, 0⟩, r2.2 ≤ x.2) ∧
      ((Tree.distList (Tree.mk [⟨⟨0, 0⟩, 1, none, []⟩,
          ⟨⟨3, 0⟩, 1, none, []⟩]) ⟨1, 0⟩).Pairwise (fun a b => a.2 ≠ b.2) →
        (Tree.mk [⟨⟨0, 0⟩, 1, none, []⟩,
            ⟨⟨3, 0⟩, 1, none, []⟩]).find_kth_nearest_nodes ⟨1, 0⟩ 0 =
          (Tree.mk [⟨⟨0, 0⟩, 1, none, []⟩,
            ⟨⟨3, 0⟩, 1, none, []⟩]).find_nearest_node ⟨1, 0⟩)) :=
  ⟨by decide, C10_kth_zero_vs_nearest
    (Tree.mk [⟨⟨0, 0⟩, 1, none, []⟩, ⟨⟨3, 0⟩, 1, none, []⟩]) ⟨1, 0⟩ (by decide)⟩

/-! ## Claim theorems: attraction phase -/

theorem mem_distList_fst_lt (t : Tree) (pos : Vec2) (p : NodeId × ℚ)
    (hp : p ∈ Tree.distList t pos) : p.1 < t.nodes.length := by
  rw [Tree.distList] at hp
  obtain ⟨q, hq, rfl⟩ := List.mem_map.mp hp
  have : ∀ x ∈ t.nodes.enum, x.1 < t.nodes.length := by
    rw [List.forall_mem_enum]
    intro i hi
    exact hi
  exact this q hq

theorem find_kth_id_lt (t : Tree) (pos : Vec2) (k : Nat) (id : NodeId) (d2 : ℚ)
    (h : t.find_kth_nearest_nodes pos k = some (id, d2)) : id < t.nodes.length := by
  by_cases hn : t.nodes.length = 0
  · rw [Tree.find_kth_nearest_nodes] at h
    simp [hn] at h
  · rw [Tree.find_kth_eq t pos k hn] at h
    have hmem : (id, d2) ∈ (Tree.distList t pos).insertionSort Tree.distLE := by
      by_cases hk : t.nodes.length ≤ k
      · rw [if_pos hk] at h
        exact List.getElem?_mem h
      · rw [if_neg hk] at h
        exact List.getElem?_mem h
    exact mem_distList_fst_lt t pos (id, d2)
      ((List.perm_insertionSort Tree.distLE (Tree.distList t pos)).mem_iff.mp hmem)

theorem contribOf_alive_some (t : Tree) (cfg : Config) (a : Attractor)
    (id' : NodeId) (d2 : ℚ) (ha : a.alive = true)
    (hfk : t.find_kth_nearest_nodes a.pos cfg.attract_from_kn = some (id', d2)) :
    contribOf t cfg a =
      (if d2 < cfg.influence_radius * cfg.influence_radius
        then some (id', Vec2.normalize_or_zero (a.pos - (t.nodes.getD id' default).pos))
        else none) := by
  unfold contribOf
  rw [if_pos ha, hfk]

theorem contribOf_none_of_no_node (t : Tree) (cfg : Config) (a : Attractor)
    (ha : a.alive = true)
    (hfk : t.find_kth_nearest_nodes a.pos cfg.attract_from_kn = none) :
    contribOf t cfg a = none := by
  unfold contribOf
  rw [if_pos ha, hfk]

theorem contribOf_dead (t : Tree) (cfg : Config) (a : Attractor)
    (ha : a.alive = false) : contribOf t cfg a = none := by
  unfold contribOf
  rw [ha]
  rfl

theorem contribOf_id_lt (t : Tree) (cfg : Config) (a : Attractor) (id : NodeId)
    (d : Vec2) (h : contribOf t cfg a = some (id, d)) : id < t.nodes.length := by
  by_cases ha : a.alive
  · cases hfk : t.find_kth_nearest_nodes a.pos cfg.attract_from_kn with
    | none =>
      rw [contribOf_none_of_no_node t cfg a ha hfk] at h
      cases h
    | some p =>
      obtain ⟨id', d2⟩ := p
      rw [contribOf_alive_some t cfg a id' d2 ha hfk] at h
      by_cases hd : d2 < cfg.influence_radius * cfg.influence_radius
      · rw [if_pos hd] at h
        have he := Option.some_inj.mp h
        have hid : id' = id := congrArg Prod.fst he
        exact hid ▸ find_kth_id_lt t a.pos cfg.attract_from_kn id' d2 hfk
      · rw [if_neg hd] at h
        cases h
  · rw [contribOf_dead t cfg a (Bool.not_eq_true a.alive ▸ ha)] at h
    cases h

/-- The directions contributed to node `j`, in attractor order. -/
def contribsTo (t : Tree) (cfg : Config) (l : List Attractor) (j : Nat) : List Vec2 :=
  l.filterMap fun a =>
    match contribOf t cfg a with
    | some (id, d) => if id = j then some d else none
    | none => none

theorem contribsTo_cons_none (t : Tree) (cfg : Config) (a : Attractor)
    (l : List Attractor) (j : Nat) (hco : contribOf t cfg a = none) :
    contribsTo t cfg (a :: l) j = contribsTo t cfg l j := by
  rw [contribsTo, List.filterMap_cons, hco]
  rfl

theorem contribsTo_cons_some_eq (t : Tree) (cfg : Config) (a : Attractor)
    (l : List Attractor) (j : Nat) (d : Vec2)
    (hco : contribOf t cfg a = some (j, d)) :
    contribsTo t cfg (a :: l) j = d :: contribsTo t cfg l j := by
  rw [contribsTo, List.filterMap_cons, hco]
  simp [contribsTo]

theorem contribsTo_cons_some_ne (t : Tree) (cfg : Config) (a : Attractor)
    (l : List Attractor) (j id : Nat) (d : Vec2) (hij : id ≠ j)
    (hco : contribOf t cfg a = some (id, d)) :
    contribsTo t cfg (a :: l) j = contribsTo t cfg l j := by
  rw [contribsTo, List.filterMap_cons, hco]
  simp [hij, contribsTo]

theorem attractorUpdate_alive_some (t : Tree) (cfg : Config) (a : Attractor)
    (id : NodeId) (d2 : ℚ) (ha : a.alive = true)
    (hfk : t.find_kth_nearest_nodes a.pos cfg.attract_from_kn = some (id, d2)) :
    attractorUpdate t cfg a =
      (if d2 < cfg.influence_radius * cfg.influence_radius
        then { a with owner := some id } else { a with owner := none }) := by
  rw [attractorUpdate, if_pos ha, hfk]

theorem attractorUpdate_alive_none (t : Tree) (cfg : Config) (a : Attractor)
    (ha : a.alive = true)
    (hfk : t.find_kth_nearest_nodes a.pos cfg.attract_from_kn = none) :
    attractorUpdate t cfg a = { a with owner := none } := by
  rw [attractorUpdate, if_pos ha, hfk]

theorem contribFold_lengths (t : Tree) (cfg : Config) (b : InfluenceBuffer)
    (a : Attractor) :
    (contribFold t cfg b a).dir.length = b.dir.length ∧
    (contribFold t cfg b a).count.length = b.count.length := by
  unfold contribFold
  cases contribOf t cfg a with
  | none => exact ⟨rfl, rfl⟩
  | some p =>
    exact ⟨InfluenceBuffer.add_dir_length b p.1 p.2,
      InfluenceBuffer.add_count_length b p.1 p.2⟩

theorem accumContribs_lengths (t : Tree) (cfg : Config) :
    ∀ (l : List Attractor) (b : InfluenceBuffer),
      (accumContribs t cfg b l).dir.length = b.dir.length ∧
      (accumContribs t cfg b l).count.length = b.count.length
  | [], b => ⟨rfl, rfl⟩
  | a :: l, b => by
    have hstep : accumContribs t cfg b (a :: l) =
        accumContribs t cfg (contribFold t cfg b a) l := rfl
    have hlen := contribFold_lengths t cfg b a
    have ih := accumContribs_lengths t cfg l (contribFold t cfg b a)
    rw [hstep]
    exact ⟨ih.1.trans hlen.1, ih.2.trans hlen.2⟩

theorem accumContribs_spec (t : Tree) (cfg : Config) (j : Nat)
    (hj : j < t.nodes.length) :
    ∀ (l : List Attractor) (b : InfluenceBuffer)
      (hd : b.dir.length = t.nodes.length) (hc : b.count.length = t.nodes.length),
      (accumContribs t cfg b l).count.getD j 0 =
          b.count.getD j 0 + (contribsTo t cfg l j).length ∧
      (accumContribs t cfg b l).dir.getD j 0 =
          b.dir.getD j 0 + (contribsTo t cfg l j).sum ∧
      (accumContribs t cfg b l).dir.length = t.nodes.length ∧
      (accumContribs t cfg b l).count.length = t.nodes.length
  | [], b, hd, hc => by simp [accumContribs, contribsTo, hd, hc]
  | a :: l, b, hd, hc => by
    have hstep : accumContribs t cfg b (a :: l) =
        accumContribs t cfg (contribFold t cfg b a) l := rfl
    have hlen := contribFold_lengths t cfg b a
    have ih := accumContribs_spec t cfg j hj l (contribFold t cfg b a)
      (hlen.1.trans hd) (hlen.2.trans hc)
    rw [hstep]
    cases hco : contribOf t cfg a with
    | none =>
      have hcf : contribFold t cfg b a = b := by rw [contribFold, hco]
      rw [hcf] at ih
      rw [hcf, contribsTo_cons_none t cfg a l j hco]
      exact ih
    | some p =>
      obtain ⟨id, d⟩ := p
      have hid : id < t.nodes.length := contribOf_id_lt t cfg a id d hco
      have hcf : contribFold t cfg b a = b.add id d := by rw [contribFold, hco]
      rw [hcf] at ih ⊢
      by_cases hij : id = j
      · subst hij
        rw [contribsTo_cons_some_eq t cfg a l id d hco]
        refine ⟨?_, ?_, ih.2.2.1, ih.2.2.2⟩
        · rw [ih.1, InfluenceBuffer.add_count_getD_self b id d (hc ▸ hid)]
          simp [Nat.add_assoc, Nat.add_comm 1]
        · rw [ih.2.1, InfluenceBuffer.add_dir_getD_self b id d (hd ▸ hid),
            List.sum_cons, add_assoc, add_comm d]
      · rw [contribsTo_cons_some_ne t cfg a l j id d hij hco]
        refine ⟨?_, ?_, ih.2.2.1, ih.2.2.2⟩
        · rw [ih.1, InfluenceBuffer.add_count_getD_ne b id j d hij]
        · rw [ih.2.1, InfluenceBuffer.add_dir_getD_ne b id j d hij]

/-- C6.  After `attraction_phase`: attractors that were not alive are
unchanged; an alive attractor whose rank-`attract_from_kn` node lies
strictly within the influence radius gets that node as owner, an alive
attractor with no node or an out-of-range node gets owner `None`
(position and liveness always preserved); and the buffer ends with, at
every node index, exactly the list of normalized node-to-attractor
directions contributed by the in-range alive attractors (`contribsTo`,
built from `contribOf`, which records
`normalize_or_zero (attractor.pos - node.pos)` precisely when the
attractor is alive, the query succeeds and `d2 < influence_radius²`):
the count is its length and the direction sum its sum. -/
theorem C6_attraction_spec (t : Tree) (s : AttractorSet) (cfg : Config)
    (acc : InfluenceBuffer) (hwf : acc.wf) :
    (∀ i, i < s.points.length →
      ((s.points.getD i default).alive = false →
        (attraction_phase t s cfg acc).1.points.getD i default =
          s.points.getD i default) ∧
      ((s.points.getD i default).alive = true →
        (∀ id d2,
          t.find_kth_nearest_nodes (s.points.getD i default).pos
              cfg.attract_from_kn = some (id, d2) →
          (d2 < cfg.influence_radius * cfg.influence_radius →
            (attraction_phase t s cfg acc).1.points.getD i default =
              { s.points.getD i default with owner := some id }) ∧
          (¬ d2 < cfg.influence_radius * cfg.influence_radius →
            (attraction_phase t s cfg acc).1.points.getD i default =
              { s.points.getD i default with owner := none })) ∧
        (t.find_kth_nearest_nodes (s.points.getD i default).pos
            cfg.attract_from_kn = none →
          (attraction_phase t s cfg acc).1.points.getD i default =
            { s.points.getD i default with owner := none }))) ∧
    (∀ j, j < t.nodes.length →
      (attraction_phase t s cfg acc).2.count.getD j 0 =
        (contribsTo t cfg s.points j).length ∧
      (attraction_phase t s cfg acc).2.dir.getD j 0 =
        (contribsTo t cfg s.points j).sum) ∧
    (attraction_phase t s cfg acc).2.dir.length = t.nodes.length ∧
    (attraction_phase t s cfg acc).2.count.length = t.nodes.length := by
  have hbuf : (attraction_phase t s cfg acc).2 =
      accumContribs t cfg (InfluenceBuffer.with_len t.nodes.length) s.points := by
    rw [attraction_phase_buffer,
      InfluenceBuffer.ensure_len_eq_with_len acc hwf t.nodes.length]
  constructor
  · intro i hi
    have hpt : (attraction_phase t s cfg acc).1.points.getD i default =
        attractorUpdate t cfg (s.points.getD i default) := by
      rw [attraction_phase_points, getD_map_of_lt _ _ _ _ default hi]
    constructor
    · intro ha
      rw [hpt, attractorUpdate_dead t cfg _ ha]
    · intro ha
      constructor
      · intro id d2 hfk
        constructor
        · intro hd
          rw [hpt, attractorUpdate_alive_some t cfg _ id d2 ha hfk, if_pos hd]
        · intro hd
          rw [hpt, attractorUpdate_alive_some t cfg _ id d2 ha hfk, if_neg hd]
      · intro hfk
        rw [hpt, attractorUpdate_alive_none t cfg _ ha hfk]
  · constructor
    · intro j hj
      have h := accumContribs_spec t cfg j hj s.points
        (InfluenceBuffer.with_len t.nodes.length)
        (InfluenceBuffer.with_len_dir_length t.nodes.length)
        (InfluenceBuffer.with_len_count_length t.nodes.length)
      rw [InfluenceBuffer.with_len_getD_count, InfluenceBuffer.with_len_getD_dir]
        at h
      rw [hbuf]
      exact ⟨h.1.trans (Nat.zero_add _), h.2.1.trans (zero_add _)⟩
    · have h := accumContribs_lengths t cfg s.points
        (InfluenceBuffer.with_len t.nodes.length)
      rw [hbuf]
      exact ⟨h.1.trans (InfluenceBuffer.with_len_dir_length t.nodes.length),
        h.2.trans (InfluenceBuffer.with_len_count_length t.nodes.length)⟩

/-- Witness for C6 at scenario 1 of the spec: root at (0,0), one
attractor at (1,0), influence radius 2, rank 0. -/
theorem C6_attraction_spec_witness :
    (InfluenceBuffer.with_len 0).wf ∧
    ((∀ i, i < (AttractorSet.from_positions [⟨1, 0⟩]).points.length →
      (((AttractorSet.from_positions [⟨1, 0⟩]).points.getD i default).alive = false →
        (attraction_phase (Tree.new ⟨0, 0⟩ 1) (AttractorSet.from_positions [⟨1, 0⟩])
            ⟨0, 0, 2, 2, 5, ⟨0, 0⟩⟩ (InfluenceBuffer.with_len 0)).1.points.getD i default =
          (AttractorSet.from_positions [⟨1, 0⟩]).points.getD i default) ∧
      (((AttractorSet.from_positions [⟨1, 0⟩]).points.getD i default).alive = true →
        (∀ id d2,
          (Tree.new ⟨0, 0⟩ 1).find_kth_nearest_nodes
              ((AttractorSet.from_positions [⟨1, 0⟩]).points.getD i default).pos
              (⟨0, 0, 2, 2, 5, ⟨0, 0⟩⟩ : Config).attract_from_kn = some (id, d2) →
          (d2 < (⟨0, 0, 2, 2, 5, ⟨0, 0⟩⟩ : Config).influence_radius *
              (⟨0, 0, 2, 2, 5, ⟨0, 0⟩⟩ : Config).influence_radius →
            (attraction_phase (Tree.new ⟨0, 0⟩ 1) (AttractorSet.from_positions [⟨1, 0⟩])
                ⟨0, 0, 2, 2, 5, ⟨0, 0⟩⟩ (InfluenceBuffer.with_len 0)).1.points.getD i default =
              { (AttractorSet.from_positions [⟨1, 0⟩]).points.getD i default with
                  owner := some id }) ∧
          (¬ d2 < (⟨0, 0, 2, 2, 5, ⟨0, 0⟩⟩ : Config).influence_radius *
              (⟨0, 0, 2, 2, 5, ⟨0, 0⟩⟩ : Config).influence_radius →
            (attraction_phase (Tree.new ⟨0, 0⟩ 1) (AttractorSet.from_positions [⟨1, 0⟩])
                ⟨0, 0, 2, 2, 5, ⟨0, 0⟩⟩ (InfluenceBuffer.with_len 0)).1.points.getD i default =
              { (AttractorSet.from_positions [⟨1, 0⟩]).points.getD i default with
                  owner := none })) ∧
        ((Tree.new ⟨0, 0⟩ 1).find_kth_nearest_nodes
            ((AttractorSet.from_positions [⟨1, 0⟩]).points.getD i default).pos
            (⟨0, 0, 2, 2, 5, ⟨0, 0⟩⟩ : Config).attract_from_kn = none →
          (attraction_phase (Tree.new ⟨0, 0⟩ 1) (AttractorSet.from_positions [⟨1, 0⟩])
              ⟨0, 0, 2, 2, 5, ⟨0, 0⟩⟩ (InfluenceBuffer.with_len 0)).1.points.getD i default =
            { (AttractorSet.from_positions [⟨1, 0⟩]).points.getD i default with
                owner := none }))) ∧
    (∀ j, j < (Tree.new ⟨0, 0⟩ 1).nodes.length →
      (attraction_phase (Tree.new ⟨0, 0⟩ 1) (AttractorSet.from_positions [⟨1, 0⟩])
          ⟨0, 0, 2, 2, 5, ⟨0, 0⟩⟩ (InfluenceBuffer.with_len 0)).2.count.getD j 0 =
        (contribsTo (Tree.new ⟨0, 0⟩ 1) ⟨0, 0, 2, 2, 5, ⟨0, 0⟩⟩
          (AttractorSet.from_positions [⟨1, 0⟩]).points j).length ∧
      (attraction_phase (Tree.new ⟨0, 0⟩ 1) (AttractorSet.from_positions [⟨1, 0⟩])
          ⟨0, 0, 2, 2, 5, ⟨0, 0⟩⟩ (InfluenceBuffer.with_len 0)).2.dir.getD j 0 =
        (contribsTo (Tree.new ⟨0, 0⟩ 1) ⟨0, 0, 2, 2, 5, ⟨0, 0⟩⟩
          (AttractorSet.from_positions [⟨1, 0⟩]).points j).sum) ∧
    (attraction_phase (Tree.new ⟨0, 0⟩ 1) (AttractorSet.from_positions [⟨1, 0⟩])
        ⟨0, 0, 2, 2, 5, ⟨0, 0⟩⟩ (InfluenceBuffer.with_len 0)).2.dir.length =
      (Tree.new ⟨0, 0⟩ 1).nodes.length ∧
    (attraction_phase (Tree.new ⟨0, 0⟩ 1) (AttractorSet.from_positions [⟨1, 0⟩])
        ⟨0, 0, 2, 2, 5, ⟨0, 0⟩⟩ (InfluenceBuffer.with_len 0)).2.count.length =
      (Tree.new ⟨0, 0⟩ 1).nodes.length) :=
  ⟨rfl, C6_attraction_spec (Tree.new ⟨0, 0⟩ 1) (AttractorSet.from_positions [⟨1, 0⟩])
    ⟨0, 0, 2, 2, 5, ⟨0, 0⟩⟩ (InfluenceBuffer.with_len 0) rfl⟩

/-! ## Commit-loop machinery for the growth phase -/

/-- The ids (starting at `start`) of the candidates in a commit list
whose parent is `q`, in commit order. -/
def childIds (start q : Nat) : List (NodeId × Vec2 × ℚ) → List NodeId
  | [] => []
  | c :: cs => (if c.1 = q then [start] else []) ++ childIds (start + 1) q cs

theorem childIds_nil_of_ne (q : Nat) :
    ∀ (cs : List (NodeId × Vec2 × ℚ)) (start : Nat), (∀ c ∈ cs, c.1 ≠ q) →
      childIds start q cs = []
  | [], _, _ => rfl
  | c :: cs, start, h => by
    rw [childIds, if_neg (h c (List.mem_cons_self c cs)), List.nil_append]
    exact childIds_nil_of_ne q cs (start + 1) fun x hx => h x (List.mem_cons_of_mem c hx)

theorem childIds_subsingleton (q : Nat) :
    ∀ (cs : List (NodeId × Vec2 × ℚ)) (start : Nat),
      cs.Pairwise (fun a b => a.1 ≠ b.1) →
      childIds start q cs = [] ∨ ∃ x, childIds start q cs = [x]
  | [], _, _ => Or.inl rfl
  | c :: cs, start, h => by
    rw [childIds]
    by_cases hc : c.1 = q
    · rw [if_pos hc]
      right
      refine ⟨start, ?_⟩
      rw [childIds_nil_of_ne q cs (start + 1)
        (fun x hx hxq => (List.pairwise_cons.mp h).1 x hx (hc.trans hxq.symm))]
      rfl
    · rw [if_neg hc, List.nil_append]
      exact childIds_subsingleton q cs (start + 1) (List.pairwise_cons.mp h).2

theorem mem_childIds (q : Nat) :
    ∀ (cs : List (NodeId × Vec2 × ℚ)) (start : Nat) (x : Nat),
      x ∈ childIds start q cs →
      ∃ j, ∃ hj : j < cs.length, x = start + j ∧ (cs.get ⟨j, hj⟩).1 = q
  | [], _, _, hx => absurd hx (List.not_mem_nil _)
  | c :: cs, start, x, hx => by
    rw [childIds] at hx
    rcases List.mem_append.mp hx with h1 | h2
    · by_cases hc : c.1 = q
      · rw [if_pos hc] at h1
        have hx1 : x = start := List.mem_singleton.mp h1
        exact ⟨0, Nat.succ_pos _, by omega, hc⟩
      · rw [if_neg hc] at h1
        cases h1
    · obtain ⟨j, hj, hx, hq⟩ := mem_childIds q cs (start + 1) x h2
      exact ⟨j + 1, Nat.succ_lt_succ hj, by omega, hq⟩

theorem childIds_singleton (q : Nat) :
    ∀ (cs : List (NodeId × Vec2 × ℚ)) (start j : Nat) (hj : j < cs.length),
      cs.Pairwise (fun a b => a.1 ≠ b.1) → (cs.get ⟨j, hj⟩).1 = q →
      childIds start q cs = [start + j]
  | [], _, j, hj, _, _ => absurd hj (Nat.not_lt_zero j)
  | c :: cs, start, 0, hj, hp, hq => by
    have hq' : c.1 = q := hq
    rw [childIds, if_pos hq',
      childIds_nil_of_ne q cs (start + 1)
        (fun x hx hxq => (List.pairwise_cons.mp hp).1 x hx (hq'.trans hxq.symm))]
    simp
  | c :: cs, start, j + 1, hj, hp, hq => by
    rw [childIds]
    have hq' : (cs.get ⟨j, Nat.lt_of_succ_lt_succ hj⟩).1 = q := hq
    have hcq : c.1 ≠ q := by
      intro hc
      exact (List.pairwise_cons.mp hp).1 _
        (List.get_mem cs j (Nat.lt_of_succ_lt_succ hj)) (hc.trans hq'.symm)
    rw [if_neg hcq, List.nil_append,
      childIds_singleton q cs (start + 1) j (Nat.lt_of_succ_lt_succ hj)
        (List.pairwise_cons.mp hp).2 hq']
    congr 1
    omega

namespace Tree

theorem add_child_length (t : Tree) (p : NodeId) (pos : Vec2) (r : ℚ) :
    (t.add_child p pos r).1.nodes.length = t.nodes.length + 1 := by
  dsimp only [add_child]
  rw [List.length_set, List.length_append, List.length_singleton]

theorem add_child_node_untouched (t : Tree) (p : NodeId) (pos : Vec2) (r : ℚ)
    (q : Nat) (hq : q < t.nodes.length) (hqp : q ≠ p) :
    (t.add_child p pos r).1.nodes.getD q default = t.nodes.getD q default := by
  dsimp only [add_child]
  rw [getD_set_ne _ _ _ _ _ fun h => hqp h.symm,
    List.getD_eq_getElem?_getD, List.getElem?_append_left hq,
    ← List.getD_eq_getElem?_getD]

theorem add_child_node_parent (t : Tree) (p : NodeId) (pos : Vec2) (r : ℚ)
    (hp : p < t.nodes.length) :
    (t.add_child p pos r).1.nodes.getD p default =
      { t.nodes.getD p default with
        children := (t.nodes.getD p default).children ++ [t.nodes.length] } := by
  dsimp only [add_child]
  have hpush : (t.nodes ++ [TreeNode.new_child pos r p]).getD p default =
      t.nodes.getD p default := by
    rw [List.getD_eq_getElem?_getD, List.getElem?_append_left hp,
      ← List.getD_eq_getElem?_getD]
  rw [getD_set_self _ _ _ _
    (by rw [List.length_append, List.length_singleton]; exact Nat.lt_succ_of_lt hp), hpush]

theorem add_child_node_new (t : Tree) (p : NodeId) (pos : Vec2) (r : ℚ)
    (hp : p ≠ t.nodes.length) :
    (t.add_child p pos r).1.nodes.getD t.nodes.length default =
      TreeNode.new_child pos r p := by
  dsimp only [add_child]
  rw [getD_set_ne _ _ _ _ _ hp, List.getD_eq_getElem?_getD,
    List.getElem?_append_right (le_refl t.nodes.length), Nat.sub_self]
  rfl

end Tree

theorem commit_foldl_ids :
    ∀ (cands : List (NodeId × Vec2 × ℚ)) (t : Tree) (ids : List NodeId),
      cands.foldl
          (fun st c =>
            let r := st.1.add_child c.1 c.2.1 c.2.2
            (r.1, st.2 ++ [r.2]))
          (t, ids) =
        ((commitAll t cands).1, ids ++ (commitAll t cands).2)
  | [], t, ids => by simp [commitAll]
  | c :: cs, t, ids => by
    rw [commitAll, List.foldl_cons, List.foldl_cons,
      commit_foldl_ids cs _ (ids ++ [(t.add_child c.1 c.2.1 c.2.2).2]),
      commit_foldl_ids cs _ ([] ++ [(t.add_child c.1 c.2.1 c.2.2).2])]
    simp

theorem commitAll_cons (t : Tree) (c : NodeId × Vec2 × ℚ)
    (cs : List (NodeId × Vec2 × ℚ)) :
    commitAll t (c :: cs) =
      ((commitAll (t.add_child c.1 c.2.1 c.2.2).1 cs).1,
        t.nodes.length :: (commitAll (t.add_child c.1 c.2.1 c.2.2).1 cs).2) := by
  rw [commitAll, List.foldl_cons, commit_foldl_ids]
  rfl

theorem commitAll_length :
    ∀ (cands : List (NodeId × Vec2 × ℚ)) (t : Tree),
      (commitAll t cands).1.nodes.length = t.nodes.length + cands.length
  | [], t => rfl
  | c :: cs, t => by
    rw [commitAll_cons]
    dsimp only
    rw [commitAll_length cs, Tree.add_child_length, List.length_cons]
    omega

theorem commitAll_ids :
    ∀ (cands : List (NodeId × Vec2 × ℚ)) (t : Tree),
      (commitAll t cands).2 = List.range' t.nodes.length cands.length 1
  | [], t => rfl
  | c :: cs, t => by
    rw [commitAll_cons]
    dsimp only
    rw [commitAll_ids cs, Tree.add_child_length]
    rfl

theorem commitAll_old_nodes :
    ∀ (cands : List (NodeId × Vec2 × ℚ)) (t : Tree) (q : Nat), q < t.nodes.length →
      (commitAll t cands).1.nodes.getD q default =
        { t.nodes.getD q default with
          children := (t.nodes.getD q default).children ++
            childIds t.nodes.length q cands }
  | [], t, q, hq => by
    rw [commitAll]
    dsimp only [List.foldl_nil]
    rw [childIds, List.append_nil]
  | c :: cs, t, q, hq => by
    rw [commitAll_cons]
    dsimp only
    rw [commitAll_old_nodes cs (t.add_child c.1 c.2.1 c.2.2).1 q
      (by rw [Tree.add_child_length]; omega)]
    rw [Tree.add_child_length, childIds]
    by_cases hcq : c.1 = q
    · rw [← hcq] at hq ⊢
      rw [Tree.add_child_node_parent t c.1 c.2.1 c.2.2 hq, if_pos rfl]
      dsimp only
      rw [List.append_assoc]
    · rw [Tree.add_child_node_untouched t c.1 c.2.1 c.2.2 q hq fun h => hcq h.symm,
        if_neg hcq, List.nil_append]

theorem commitAll_new_nodes :
    ∀ (cands : List (NodeId × Vec2 × ℚ)) (t : Tree), (∀ c ∈ cands, c.1 < t.nodes.length) →
      ∀ (j : Nat) (hj : j < cands.length),
        (commitAll t cands).1.nodes.getD (t.nodes.length + j) default =
          TreeNode.new_child (cands.get ⟨j, hj⟩).2.1 (cands.get ⟨j, hj⟩).2.2
            (cands.get ⟨j, hj⟩).1
  | [], t, _, j, hj => absurd hj (Nat.not_lt_zero j)
  | c :: cs, t, hlt, 0, hj => by
    rw [commitAll_cons]
    dsimp only
    have hc1 : c.1 < t.nodes.length := hlt c (List.mem_cons_self c cs)
    have hnew : (t.add_child c.1 c.2.1 c.2.2).1.nodes.getD t.nodes.length default =
        TreeNode.new_child c.2.1 c.2.2 c.1 :=
      Tree.add_child_node_new t c.1 c.2.1 c.2.2 (Nat.ne_of_lt hc1)
    rw [Nat.add_zero,
      commitAll_old_nodes cs (t.add_child c.1 c.2.1 c.2.2).1 t.nodes.length
        (by rw [Tree.add_child_length]; omega),
      hnew, Tree.add_child_length,
      childIds_nil_of_ne t.nodes.length cs (t.nodes.length + 1)
        (fun x hx => Nat.ne_of_lt (hlt x (List.mem_cons_of_mem c hx)))]
    simp
  | c :: cs, t, hlt, j + 1, hj => by
    rw [commitAll_cons]
    dsimp only
    have ih := commitAll_new_nodes cs (t.add_child c.1 c.2.1 c.2.2).1
      (fun x hx => by
        rw [Tree.add_child_length]
        exact Nat.lt_of_lt_of_le (hlt x (List.mem_cons_of_mem c hx)) (Nat.le_succ _))
      j (Nat.lt_of_succ_lt_succ hj)
    rw [Tree.add_child_length] at ih
    have harith : t.nodes.length + (j + 1) = t.nodes.length + 1 + j := by omega
    rw [harith, ih]
    rfl

/-! ## The influenced indices and the collected candidates -/

theorem filterMap_enum_pos_eq (l : List Nat) :
    ∀ L : List (Nat × Nat),
      (L.filterMap fun p => if p.2 > 0 then some p.1 else none) =
        (L.filter fun p => decide (p.2 > 0)).map Prod.fst
  | [] => rfl
  | p :: L => by
    by_cases hp : p.2 > 0 <;>
      simp [List.filterMap_cons, List.filter_cons, hp, filterMap_enum_pos_eq l L]

theorem influenced_indices_eq (b : InfluenceBuffer) :
    b.influenced_indices =
      (b.count.enum.filter fun p => decide (p.2 > 0)).map Prod.fst :=
  filterMap_enum_pos_eq [] b.count.enum

theorem influenced_indices_sublist_range (b : InfluenceBuffer) :
    List.Sublist b.influenced_indices (List.range b.count.length) := by
  rw [influenced_indices_eq]
  have h2 := (List.filter_sublist (p := fun p => decide (p.2 > 0)) b.count.enum).map
    Prod.fst
  rw [List.enum_map_fst] at h2
  exact h2

theorem influenced_indices_pairwise (b : InfluenceBuffer) :
    b.influenced_indices.Pairwise (· < ·) :=
  (List.pairwise_lt_range _).sublist (influenced_indices_sublist_range b)

theorem influenced_indices_lt (b : InfluenceBuffer) :
    ∀ i ∈ b.influenced_indices, i < b.count.length := fun i hi =>
  List.mem_range.mp ((influenced_indices_sublist_range b).subset hi)

/-- The influenced indices that survive duplicate suppression, in
ascending order: exactly the parents `growth_phase` will commit a child
for. -/
def keptIndices (t : Tree) (acc : InfluenceBuffer) (cfg : Config) : List NodeId :=
  acc.influenced_indices.filter fun id =>
    ! t.has_child_near id (growthCandidate t acc cfg id).2.1 (1/10)

/-- The collection step of `growth_phase` for a single influenced
index, named for rewriting. -/
def growthFilter (t : Tree) (acc : InfluenceBuffer) (cfg : Config)
    (id : NodeId) : Option (NodeId × Vec2 × ℚ) :=
  let c := growthCandidate t acc cfg id
  if t.has_child_near id c.2.1 (1/10) then none else some c

theorem growthFilter_pos (t : Tree) (acc : InfluenceBuffer) (cfg : Config)
    (id : NodeId)
    (hp : t.has_child_near id (growthCandidate t acc cfg id).2.1 (1/10) = true) :
    growthFilter t acc cfg id = none := by
  show (if t.has_child_near id (growthCandidate t acc cfg id).2.1 (1/10) = true
    then none else some (growthCandidate t acc cfg id)) = none
  rw [hp]
  rfl

theorem growthFilter_neg (t : Tree) (acc : InfluenceBuffer) (cfg : Config)
    (id : NodeId)
    (hp : t.has_child_near id (growthCandidate t acc cfg id).2.1 (1/10) = false) :
    growthFilter t acc cfg id = some (growthCandidate t acc cfg id) := by
  show (if t.has_child_near id (growthCandidate t acc cfg id).2.1 (1/10) = true
    then none else some (growthCandidate t acc cfg id)) =
    some (growthCandidate t acc cfg id)
  rw [hp]
  rfl

theorem toAdd_eq_aux (t : Tree) (acc : InfluenceBuffer) (cfg : Config) :
    ∀ l : List NodeId,
      l.filterMap (growthFilter t acc cfg) =
      (l.filter fun id =>
          ! t.has_child_near id (growthCandidate t acc cfg id).2.1 (1/10)).map
        (growthCandidate t acc cfg)
  | [] => rfl
  | id :: l => by
    rw [List.filterMap_cons, List.filter_cons]
    cases hp : t.has_child_near id (growthCandidate t acc cfg id).2.1 (1/10) with
    | false =>
      rw [growthFilter_neg t acc cfg id hp,
        if_pos (by decide : (!false) = true), List.map_cons]
      exact congrArg _ (toAdd_eq_aux t acc cfg l)
    | true =>
      rw [growthFilter_pos t acc cfg id hp, if_neg (by decide)]
      exact toAdd_eq_aux t acc cfg l

theorem toAdd_eq (t : Tree) (acc : InfluenceBuffer) (cfg : Config) :
    toAdd t acc cfg = (keptIndices t acc cfg).map (growthCandidate t acc cfg) := by
  have h : toAdd t acc cfg =
      acc.influenced_indices.filterMap (growthFilter t acc cfg) := rfl
  rw [h, keptIndices]
  exact toAdd_eq_aux t acc cfg acc.influenced_indices

theorem keptIndices_sublist (t : Tree) (acc : InfluenceBuffer) (cfg : Config) :
    List.Sublist (keptIndices t acc cfg) acc.influenced_indices :=
  List.filter_sublist acc.influenced_indices

theorem keptIndices_lt (t : Tree) (acc : InfluenceBuffer) (cfg : Config) :
    ∀ i ∈ keptIndices t acc cfg, i < acc.count.length := fun i hi =>
  influenced_indices_lt acc i ((keptIndices_sublist t acc cfg).subset hi)

theorem keptIndices_pairwise (t : Tree) (acc : InfluenceBuffer) (cfg : Config) :
    (keptIndices t acc cfg).Pairwise (· < ·) :=
  (influenced_indices_pairwise acc).sublist (keptIndices_sublist t acc cfg)

theorem toAdd_parents_lt (t : Tree) (acc : InfluenceBuffer) (cfg : Config)
    (hlen : acc.count.length = t.nodes.length) :
    ∀ c ∈ toAdd t acc cfg, c.1 < t.nodes.length := by
  intro c hc
  rw [toAdd_eq] at hc
  obtain ⟨id, hid, rfl⟩ := List.mem_map.mp hc
  exact hlen ▸ keptIndices_lt t acc cfg id hid

theorem toAdd_pairwise_ne (t : Tree) (acc : InfluenceBuffer) (cfg : Config) :
    (toAdd t acc cfg).Pairwise (fun a b => a.1 ≠ b.1) := by
  rw [toAdd_eq]
  exact List.Pairwise.map (growthCandidate t acc cfg)
    (fun a b (h : a < b) => (Nat.ne_of_lt h : a ≠ b))
    (keptIndices_pairwise t acc cfg)

/-- C9.  `growth_phase` commits exactly one child per influenced,
non-suppressed index (`keptIndices`, in ascending order): the returned
ids are the consecutive fresh indices `n, n+1, ...` in that order; the
`j`-th new node is a child of the `j`-th kept index, positioned at
`parent.pos + growth-direction * step_len` (the direction being the
normalized mean influence — normalization skipped at exactly zero —
plus tropism, renormalized) with the parent's radius and no children;
and the parent's child list gains exactly that one new id, at the
end. -/
theorem C9_growth_spec (t : Tree) (acc : InfluenceBuffer) (cfg : Config)
    (hlen : acc.count.length = t.nodes.length) :
    (growth_phase t acc cfg).2 =
      List.range' t.nodes.length (keptIndices t acc cfg).length 1 ∧
    (growth_phase t acc cfg).1.nodes.length =
      t.nodes.length + (keptIndices t acc cfg).length ∧
    ∀ (j : Nat) (hj : j < (keptIndices t acc cfg).length),
      (growth_phase t acc cfg).1.nodes.getD (t.nodes.length + j) default =
        ⟨(t.nodes.getD ((keptIndices t acc cfg).get ⟨j, hj⟩) default).pos +
            Vec2.smul cfg.step_len
              (growthDir acc cfg ((keptIndices t acc cfg).get ⟨j, hj⟩)),
          (t.nodes.getD ((keptIndices t acc cfg).get ⟨j, hj⟩) default).radius,
          some ((keptIndices t acc cfg).get ⟨j, hj⟩), []⟩ ∧
      (growth_phase t acc cfg).1.nodes.getD
          ((keptIndices t acc cfg).get ⟨j, hj⟩) default =
        { t.nodes.getD ((keptIndices t acc cfg).get ⟨j, hj⟩) default with
          children :=
            (t.nodes.getD ((keptIndices t acc cfg).get ⟨j, hj⟩) default).children ++
              [t.nodes.length + j] } := by
  have hga : growth_phase t acc cfg = commitAll t (toAdd t acc cfg) := rfl
  have hlen' : (toAdd t acc cfg).length = (keptIndices t acc cfg).length := by
    rw [toAdd_eq, List.length_map]
  have hplt := toAdd_parents_lt t acc cfg hlen
  refine ⟨?_, ?_, ?_⟩
  · rw [hga, commitAll_ids, hlen']
  · rw [hga, commitAll_length, hlen']
  · intro j hj
    have hj' : j < (toAdd t acc cfg).length := hlen' ▸ hj
    have hget : (toAdd t acc cfg).get ⟨j, hj'⟩ =
        growthCandidate t acc cfg ((keptIndices t acc cfg).get ⟨j, hj⟩) := by
      have := toAdd_eq t acc cfg
      rw [List.get_eq_getElem, List.get_eq_getElem]
      simp only [this, List.getElem_map]
    constructor
    · rw [hga, commitAll_new_nodes (toAdd t acc cfg) t hplt j hj', hget]
      rfl
    · have hp : (keptIndices t acc cfg).get ⟨j, hj⟩ < t.nodes.length :=
        hlen ▸ keptIndices_lt t acc cfg _ (List.get_mem _ _ _)
      rw [hga, commitAll_old_nodes (toAdd t acc cfg) t _ hp,
        childIds_singleton _ (toAdd t acc cfg) t.nodes.length j hj'
          (toAdd_pairwise_ne t acc cfg) (by rw [hget]; rfl)]

/-- Witness for C9 at scenario 2 of the spec: buffer holding direction
(1,0) with count 1 at node 0, step length 2, zero tropism — growth
creates exactly one child, with id 1, at position (2,0), with the
parent's radius 1. -/
theorem C9_growth_spec_witness :
    (⟨[⟨1, 0⟩], [1]⟩ : InfluenceBuffer).count.length =
        (Tree.new ⟨0, 0⟩ 1).nodes.length ∧
    ((growth_phase (Tree.new ⟨0, 0⟩ 1) ⟨[⟨1, 0⟩], [1]⟩
        ⟨0, 0, 60, 30, 2, ⟨0, 0⟩⟩).2 =
      List.range' (Tree.new ⟨0, 0⟩ 1).nodes.length
        (keptIndices (Tree.new ⟨0, 0⟩ 1) ⟨[⟨1, 0⟩], [1]⟩
          ⟨0, 0, 60, 30, 2, ⟨0, 0⟩⟩).length 1 ∧
      (growth_phase (Tree.new ⟨0, 0⟩ 1) ⟨[⟨1, 0⟩], [1]⟩
          ⟨0, 0, 60, 30, 2, ⟨0, 0⟩⟩).1.nodes.length =
        (Tree.new ⟨0, 0⟩ 1).nodes.length +
          (keptIndices (Tree.new ⟨0, 0⟩ 1) ⟨[⟨1, 0⟩], [1]⟩
            ⟨0, 0, 60, 30, 2, ⟨0, 0⟩⟩).length ∧
      ∀ (j : Nat) (hj : j < (keptIndices (Tree.new ⟨0, 0⟩ 1) ⟨[⟨1, 0⟩], [1]⟩
          ⟨0, 0, 60, 30, 2, ⟨0, 0⟩⟩).length),
        (growth_phase (Tree.new ⟨0, 0⟩ 1) ⟨[⟨1, 0⟩], [1]⟩
            ⟨0, 0, 60, 30, 2, ⟨0, 0⟩⟩).1.nodes.getD
            ((Tree.new ⟨0, 0⟩ 1).nodes.length + j) default =
          ⟨((Tree.new ⟨0, 0⟩ 1).nodes.getD
                ((keptIndices (Tree.new ⟨0, 0⟩ 1) ⟨[⟨1, 0⟩], [1]⟩
                  ⟨0, 0, 60, 30, 2, ⟨0, 0⟩⟩).get ⟨j, hj⟩) default).pos +
              Vec2.smul (⟨0, 0, 60, 30, 2, ⟨0, 0⟩⟩ : Config).step_len
                (growthDir ⟨[⟨1, 0⟩], [1]⟩ ⟨0, 0, 60, 30, 2, ⟨0, 0⟩⟩
                  ((keptIndices (Tree.new ⟨0, 0⟩ 1) ⟨[⟨1, 0⟩], [1]⟩
                    ⟨0, 0, 60, 30, 2, ⟨0, 0⟩⟩).get ⟨j, hj⟩)),
            ((Tree.new ⟨0, 0⟩ 1).nodes.getD
                ((keptIndices (Tree.new ⟨0, 0⟩ 1) ⟨[⟨1, 0⟩], [1]⟩
                  ⟨0, 0, 60, 30, 2, ⟨0, 0⟩⟩).get ⟨j, hj⟩) default).radius,
            some ((keptIndices (Tree.new ⟨0, 0⟩ 1) ⟨[⟨1, 0⟩], [1]⟩
              ⟨0, 0, 60, 30, 2, ⟨0, 0⟩⟩).get ⟨j, hj⟩), []⟩ ∧
        (growth_phase (Tree.new ⟨0, 0⟩ 1) ⟨[⟨1, 0⟩], [1]⟩
            ⟨0, 0, 60, 30, 2, ⟨0, 0⟩⟩).1.nodes.getD
            ((keptIndices (Tree.new ⟨0, 0⟩ 1) ⟨[⟨1, 0⟩], [1]⟩
              ⟨0, 0, 60, 30, 2, ⟨0, 0⟩⟩).get ⟨j, hj⟩) default =
          { (Tree.new ⟨0, 0⟩ 1).nodes.getD
              ((keptIndices (Tree.new ⟨0, 0⟩ 1) ⟨[⟨1, 0⟩], [1]⟩
                ⟨0, 0, 60, 30, 2, ⟨0, 0⟩⟩).get ⟨j, hj⟩) default with
            children :=
              ((Tree.new ⟨0, 0⟩ 1).nodes.getD
                  ((keptIndices (Tree.new ⟨0, 0⟩ 1) ⟨[⟨1, 0⟩], [1]⟩
                    ⟨0, 0, 60, 30, 2, ⟨0, 0⟩⟩).get ⟨j, hj⟩) default).children ++
                [(Tree.new ⟨0, 0⟩ 1).nodes.length + j] }) ∧
    ((growth_phase (Tree.new ⟨0, 0⟩ 1) ⟨[⟨1, 0⟩], [1]⟩
        ⟨0, 0, 60, 30, 2, ⟨0, 0⟩⟩).1.nodes.getD 1 default).pos = ⟨2, 0⟩ ∧
    (growth_phase (Tree.new ⟨0, 0⟩ 1) ⟨[⟨1, 0⟩], [1]⟩
        ⟨0, 0, 60, 30, 2, ⟨0, 0⟩⟩).2 = [1] ∧
    ((growth_phase (Tree.new ⟨0, 0⟩ 1) ⟨[⟨1, 0⟩], [1]⟩
        ⟨0, 0, 60, 30, 2, ⟨0, 0⟩⟩).1.nodes.getD 1 default).radius = 1 :=
  ⟨rfl,
    C9_growth_spec (Tree.new ⟨0, 0⟩ 1) ⟨[⟨1, 0⟩], [1]⟩
      ⟨0, 0, 60, 30, 2, ⟨0, 0⟩⟩ rfl,
    by
      norm_num [growth_phase, toAdd, commitAll, InfluenceBuffer.influenced_indices,
        List.enum, List.enumFrom, growthCandidate, growthDir,
        InfluenceBuffer.avg_dir, Vec2.normalize_or_zero, Vec2.normalize,
        Vec2.len2, Vec2.smul, sqrtQ, Tree.has_child_near, Tree.new,
        TreeNode.new_root, Tree.add_child, TreeNode.new_child, Vec2.add_def,
        Vec2.sub_def, List.filterMap_cons, List.filterMap_nil, List.filter_cons,
        List.filter_nil, List.foldl_cons, List.foldl_nil, List.any_cons,
        List.any_nil, List.getD_cons_zero, List.getD_cons_succ,
        List.getD_eq_getElem?_getD, List.getElem?_cons_zero,
        List.getElem?_cons_succ, List.getElem?_nil, List.set_cons_zero,
        List.set_cons_succ]⟩

/-! ## Claim theorems: duplicate suppression -/

theorem getD_of_lt {α : Type} [Inhabited α] (l : List α) (i : Nat)
    (h : i < l.length) : l.getD i default = l[i] := by
  rw [List.getD_eq_getElem?_getD, List.getElem?_eq_getElem h]
  rfl

/-- Every child reference of every node is a valid index. -/
def childrenValid (t : Tree) : Prop :=
  ∀ q, q < t.nodes.length →
    ∀ c ∈ (t.nodes.getD q default).children, c < t.nodes.length

/-- No two children of the same parent lie strictly within 0.1 units
of each other. -/
def sepPairs (t : Tree) : Prop :=
  ∀ p : Nat, ((t.nodes.getD p default).children).Pairwise fun c1 c2 =>
    ¬ (Vec2.len2 ((t.nodes.getD c1 default).pos -
        (t.nodes.getD c2 default).pos) < (1/10) * (1/10))

theorem has_child_near_false_iff (t : Tree) (p : NodeId) (pos : Vec2) (eps : ℚ) :
    t.has_child_near p pos eps = false ↔
      ∀ cid ∈ (t.nodes.getD p default).children,
        ¬ (Vec2.len2 ((t.nodes.getD cid default).pos - pos) < eps * eps) := by
  rw [Tree.has_child_near, List.any_eq_false]
  constructor
  · intro h cid hcid
    have := h cid hcid
    simpa using this
  · intro h cid hcid
    have := h cid hcid
    simpa using this

theorem toAdd_guard (t : Tree) (acc : InfluenceBuffer) (cfg : Config) :
    ∀ c ∈ toAdd t acc cfg, t.has_child_near c.1 c.2.1 (1/10) = false := by
  intro c hc
  rw [toAdd_eq] at hc
  obtain ⟨id, hid, rfl⟩ := List.mem_map.mp hc
  have h2 := (List.mem_filter.mp hid).2
  rw [Bool.not_eq_true'] at h2
  exact h2

theorem sep_base (t : Tree) (h : t.childless) : childrenValid t ∧ sepPairs t := by
  constructor
  · intro q hq c hc
    rw [getD_of_lt t.nodes q hq, h t.nodes[q] (t.nodes.getElem_mem hq)] at hc
    cases hc
  · intro p
    rcases Nat.lt_or_ge p t.nodes.length with hp | hp
    · rw [getD_of_lt t.nodes p hp, h t.nodes[p] (t.nodes.getElem_mem hp)]
      exact List.Pairwise.nil
    · rw [List.getD_eq_default _ _ hp]
      exact List.Pairwise.nil

theorem sep_step (t : Tree) (acc : InfluenceBuffer) (cfg : Config)
    (hlen : acc.count.length = t.nodes.length)
    (ihv : childrenValid t) (ihs : sepPairs t) :
    childrenValid (growth_phase t acc cfg).1 ∧ sepPairs (growth_phase t acc cfg).1 := by
  have hga : growth_phase t acc cfg = commitAll t (toAdd t acc cfg) := rfl
  have hplt : ∀ c ∈ toAdd t acc cfg, c.1 < t.nodes.length :=
    toAdd_parents_lt t acc cfg hlen
  have hpne := toAdd_pairwise_ne t acc cfg
  have hguard := toAdd_guard t acc cfg
  have hlen' : (commitAll t (toAdd t acc cfg)).1.nodes.length =
      t.nodes.length + (toAdd t acc cfg).length := commitAll_length _ _
  have hold : ∀ q, q < t.nodes.length →
      (commitAll t (toAdd t acc cfg)).1.nodes.getD q default =
        { t.nodes.getD q default with
          children := (t.nodes.getD q default).children ++
            childIds t.nodes.length q (toAdd t acc cfg) } :=
    fun q hq => commitAll_old_nodes (toAdd t acc cfg) t q hq
  have hnew : ∀ (j : Nat) (hj : j < (toAdd t acc cfg).length),
      (commitAll t (toAdd t acc cfg)).1.nodes.getD (t.nodes.length + j) default =
        TreeNode.new_child ((toAdd t acc cfg).get ⟨j, hj⟩).2.1
          ((toAdd t acc cfg).get ⟨j, hj⟩).2.2 ((toAdd t acc cfg).get ⟨j, hj⟩).1 :=
    commitAll_new_nodes (toAdd t acc cfg) t hplt
  have hpos : ∀ q, q < t.nodes.length →
      ((commitAll t (toAdd t acc cfg)).1.nodes.getD q default).pos =
        (t.nodes.getD q default).pos := by
    intro q hq
    rw [hold q hq]
  rw [hga]
  constructor
  · intro q hq c hc
    rw [hlen'] at hq ⊢
    rcases Nat.lt_or_ge q t.nodes.length with hqn | hqn
    · rw [hold q hqn] at hc
      rcases List.mem_append.mp hc with h1 | h2
      · exact Nat.lt_of_lt_of_le (ihv q hqn c h1) (Nat.le_add_right _ _)
      · obtain ⟨j, hj, rfl, -⟩ := mem_childIds q (toAdd t acc cfg) t.nodes.length c h2
        exact Nat.add_lt_add_left hj _
    · have hj : q - t.nodes.length < (toAdd t acc cfg).length := by omega
      have hq' : q = t.nodes.length + (q - t.nodes.length) := by omega
      rw [hq', hnew _ hj] at hc
      cases hc
  · intro p
    rcases Nat.lt_or_ge p t.nodes.length with hpn | hpn
    · rw [hold p hpn]
      dsimp only
      rw [List.pairwise_append]
      refine ⟨?_, ?_, ?_⟩
      · refine (ihs p).imp_of_mem ?_
        intro c1 c2 hc1 hc2 hfar
        rw [hpos c1 (ihv p hpn c1 hc1), hpos c2 (ihv p hpn c2 hc2)]
        exact hfar
      · rcases childIds_subsingleton p (toAdd t acc cfg) t.nodes.length hpne with
          hnil | ⟨x, hx⟩
        · rw [hnil]
          exact List.Pairwise.nil
        · rw [hx]
          exact List.pairwise_singleton _ x
      · intro c1 hc1 c2 hc2
        obtain ⟨j, hj, rfl, hq⟩ :=
          mem_childIds p (toAdd t acc cfg) t.nodes.length c2 hc2
        rw [hpos c1 (ihv p hpn c1 hc1), hnew j hj]
        have hg := hguard ((toAdd t acc cfg).get ⟨j, hj⟩) (List.get_mem _ _ _)
        rw [hq] at hg
        exact (has_child_near_false_iff t p _ (1/10)).mp hg c1 hc1
    · rcases Nat.lt_or_ge p (commitAll t (toAdd t acc cfg)).1.nodes.length with
        hpk | hpk
      · have hj : p - t.nodes.length < (toAdd t acc cfg).length := by omega
        have hp' : p = t.nodes.length + (p - t.nodes.length) := by omega
        rw [hp', hnew _ hj]
        exact List.Pairwise.nil
      · rw [List.getD_eq_default _ _ hpk]
        exact List.Pairwise.nil

theorem growthBuilt_sep (t : Tree) (h : GrowthBuilt t) :
    childrenValid t ∧ sepPairs t := by
  induction h with
  | base t ht => exact sep_base t ht
  | step t acc cfg hgb hlen ih =>
    exact sep_step t acc cfg hlen ih.1 ih.2

/-- C8.  In any tree whose children were all created by
`growth_phase` (from a childless start, with matching buffer lengths,
as the pipeline guarantees): every collected growth candidate is one
whose parent has no existing child strictly within 0.1 units of the
candidate position (the `has_child_near` discard rule), and no node
ever has two children whose positions lie strictly within 0.1 units of
each other. -/
theorem C8_duplicate_suppression (t : Tree) (h : GrowthBuilt t) :
    (∀ (acc : InfluenceBuffer) (cfg : Config), ∀ c ∈ toAdd t acc cfg,
        t.has_child_near c.1 c.2.1 (1/10) = false) ∧
    ∀ p : Nat, ((t.nodes.getD p default).children).Pairwise fun c1 c2 =>
      ¬ (Vec2.len2 ((t.nodes.getD c1 default).pos -
          (t.nodes.getD c2 default).pos) < (1/10) * (1/10)) :=
  ⟨fun acc cfg => toAdd_guard t acc cfg, (growthBuilt_sep t h).2⟩

/-- Witness for C8: one growth step from a single childless root (the
buffer influences node 0), then the separation invariant holds. -/
theorem C8_duplicate_suppression_witness :
    GrowthBuilt (growth_phase (Tree.new ⟨0, 0⟩ 1) ⟨[⟨1, 0⟩], [1]⟩
      ⟨0, 0, 60, 30, 2, ⟨0, 0⟩⟩).1 ∧
    ((∀ (acc : InfluenceBuffer) (cfg : Config),
      ∀ c ∈ toAdd (growth_phase (Tree.new ⟨0, 0⟩ 1) ⟨[⟨1, 0⟩], [1]⟩
          ⟨0, 0, 60, 30, 2, ⟨0, 0⟩⟩).1 acc cfg,
        (growth_phase (Tree.new ⟨0, 0⟩ 1) ⟨[⟨1, 0⟩], [1]⟩
          ⟨0, 0, 60, 30, 2, ⟨0, 0⟩⟩).1.has_child_near c.1 c.2.1 (1/10) = false) ∧
    ∀ p : Nat,
      (((growth_phase (Tree.new ⟨0, 0⟩ 1) ⟨[⟨1, 0⟩], [1]⟩
          ⟨0, 0, 60, 30, 2, ⟨0, 0⟩⟩).1.nodes.getD p default).children).Pairwise
        fun c1 c2 =>
          ¬ (Vec2.len2
              (((growth_phase (Tree.new ⟨0, 0⟩ 1) ⟨[⟨1, 0⟩], [1]⟩
                  ⟨0, 0, 60, 30, 2, ⟨0, 0⟩⟩).1.nodes.getD c1 default).pos -
                ((growth_phase (Tree.new ⟨0, 0⟩ 1) ⟨[⟨1, 0⟩], [1]⟩
                  ⟨0, 0, 60, 30, 2, ⟨0, 0⟩⟩).1.nodes.getD c2 default).pos) <
            (1/10) * (1/10))) :=
  ⟨GrowthBuilt.step (Tree.new ⟨0, 0⟩ 1) ⟨[⟨1, 0⟩], [1]⟩ ⟨0, 0, 60, 30, 2, ⟨0, 0⟩⟩
      (GrowthBuilt.base (Tree.new ⟨0, 0⟩ 1) (by decide)) rfl,
    C8_duplicate_suppression _
      (GrowthBuilt.step (Tree.new ⟨0, 0⟩ 1) ⟨[⟨1, 0⟩], [1]⟩ ⟨0, 0, 60, 30, 2, ⟨0, 0⟩⟩
        (GrowthBuilt.base (Tree.new ⟨0, 0⟩ 1) (by decide)) rfl)⟩

end SCA
